import Mathlib

/-!
Shallow embedding of the `PanopticMetric` class of `stp3/metrics.py`.

Conventions of the embedding:
* a 2-D grid is flattened into a `List Nat` of pixel values (all tensor
  operations used by the source are pixelwise or histogram based, so the
  flattening is faithful);
* `float32` tensors holding integer counts and rational IoU values are
  modelled over `ℚ`.  The source evaluates
  `(conf.float() + 1e-9) / (union.float() + 1e-9)` in `float32`, where for
  integer pixel counts the `1e-9` is absorbed by rounding (`c + 1e-9`
  rounds back to `c` for every count `c ≥ 1`, and a zero intersection
  yields a value far below the threshold either way), so the value the
  program compares against `0.5` is exactly `conf / union`; `iouVal`
  defines that denoted value, and `eps` with `half_lt_eps_div` records
  how the exact-real reading of the written formula would differ at the
  `IoU = 0.5` boundary;
* the per-sequence Python dict `unique_id_mapping` becomes a function
  `Nat → Option Nat`;
* tensor indexing with a possibly negative index (Python wraps negative
  indices from the end) is modelled by `tidx`;
* after the void row and column of the intersection matrix are discarded,
  the code indexes rows and columns by `combined label - 1`; the embedding
  uses the same index space (`tid`/`pid` range over `[0, n_all_things)` and
  stand for combined labels `tid + 1`/`pid + 1`).
-/

namespace STP3

/-- The numerical epsilon `1e-9` of the source, as an exact rational. -/
def eps : ℚ := 1 / 1000000000

/-- The four per-class accumulators of `PanopticMetric`
(`self.keys = ['iou', 'true_positive', 'false_positive', 'false_negative']`),
each a per-class vector modelled as a function from class index. -/
structure PanopticResult where
  iou : Nat → ℚ
  true_positive : Nat → ℚ
  false_positive : Nat → ℚ
  false_negative : Nat → ℚ

/-- Zero initial state: `torch.zeros(n_classes)` for each key. -/
def zeroResult : PanopticResult :=
  ⟨fun _ => 0, fun _ => 0, fun _ => 0, fun _ => 0⟩

/-- In-place `vec[i] += v` on a per-class vector. -/
def bump (f : Nat → ℚ) (i : Nat) (v : ℚ) : Nat → ℚ :=
  Function.update f i (f i + v)

/-- Pointwise `self.key += result[key]` for the four accumulators. -/
def addResult (a b : PanopticResult) : PanopticResult :=
  ⟨fun c => a.iou c + b.iou c,
   fun c => a.true_positive c + b.true_positive c,
   fun c => a.false_positive c + b.false_positive c,
   fun c => a.false_negative c + b.false_negative c⟩

/-- Python tensor indexing: a negative index wraps around from the end of a
vector of length `n`; a nonnegative index is used as is. -/
def tidx (n : Nat) (c : Int) : Nat :=
  (if c < 0 then (n : Int) + c else c).toNat

/-! ## Mask combination (`PanopticMetric.combine_mask`) -/

/-- One pixel's contribution to `instance_id_to_class`: a pixel whose
instance id is positive and whose segmentation value is a valid class writes
its class at index `instance - 1 + n_classes`
(`instance_id_to_class[instance_id_to_class_tuples[:, 0]] = tuples[:, 1]`,
later pixels overwriting earlier ones). -/
def writeStep (n_classes : Nat) (m : Nat → Int) (si : Nat × Nat) : Nat → Int :=
  if 0 < si.2 ∧ si.1 < n_classes then
    Function.update m (si.2 - 1 + n_classes) (si.1 : Int)
  else m

/-- The scatter of instance/class tuples into the `-1`-initialised table. -/
def toClsFold (n_classes : Nat) (pix : List (Nat × Nat)) : Nat → Int :=
  pix.foldl (writeStep n_classes) (fun _ => (-1 : Int))

/-- Table `instance_id_to_class` after the final
`instance_id_to_class[arange(n_classes)] = arange(n_classes)` write. -/
def label_to_class (n_classes : Nat) (pix : List (Nat × Nat)) : Nat → Int :=
  fun k => if k < n_classes then (k : Int) else toClsFold n_classes pix k

/-- Source method `PanopticMetric.combine_mask`, on a flattened grid.  `pix` pairs each
pixel's segmentation value with its instance value; the three list passes
mirror the source's three mutation steps
(`segmentation[instance_mask] = instance`, `segmentation += 1`,
`segmentation[~segmentation_mask] = 0`, the mask being taken on the
original segmentation values and the instance values already shifted by
`- 1 + n_classes`). -/
def combine_mask (segmentation inst : List Nat) (n_classes : Nat) :
    List Nat × (Nat → Int) :=
  let pix := segmentation.zip inst
  let s1 := pix.map (fun si => if 0 < si.2 then si.2 - 1 + n_classes else si.1)
  let s2 := s1.map (fun v => v + 1)
  let s3 := (s2.zip segmentation).map (fun x => if n_classes ≤ x.2 then 0 else x.1)
  (s3, label_to_class n_classes pix)

/-! ## Pairwise overlaps -/

/-- The paired pixel stream `x = prediction + n_things_and_void * target`. -/
def encodePix (N : Nat) (q : Nat × Nat) : Nat := q.2 + N * q.1

/-- Entry `(tid, pid)` of the intersection matrix after the void row and
column are discarded: `conf = bincount(x).reshape(N, N)[1:, 1:]`, so the
entry counts pixels whose encoded value is `(pid + 1) + N * (tid + 1)`. -/
def conf (prediction target : List Nat) (N tid pid : Nat) : Nat :=
  ((target.zip prediction).map (encodePix N)).count ((pid + 1) + N * (tid + 1))

/-- Column sum `conf.sum(0)[pid]` of the sliced intersection matrix. -/
def colSum (prediction target : List Nat) (N n_all pid : Nat) : Nat :=
  ((List.range n_all).map (fun t => conf prediction target N t pid)).sum

/-- Row sum `conf.sum(1)[tid]` of the sliced intersection matrix. -/
def rowSum (prediction target : List Nat) (N n_all tid : Nat) : Nat :=
  ((List.range n_all).map (fun p => conf prediction target N tid p)).sum

/-- Union `union = conf.sum(0).unsqueeze(0) + conf.sum(1).unsqueeze(1) - conf`. -/
def unionArea (prediction target : List Nat) (N n_all tid pid : Nat) : Nat :=
  colSum prediction target N n_all pid + rowSum prediction target N n_all tid
    - conf prediction target N tid pid

/-- IoU matrix `iou = where(union > 0, (conf + 1e-9) / (union + 1e-9), 0)`,
as the `float32` expression denotes it for integer pixel counts: the
`1e-9` is absorbed by `float32` rounding, so the compared value is exactly
`conf / union` when the union is positive. -/
def iouVal (prediction target : List Nat) (N n_all tid pid : Nat) : ℚ :=
  if 0 < unionArea prediction target N n_all tid pid then
    (conf prediction target N tid pid : ℚ)
      / (unionArea prediction target N n_all tid pid : ℚ)
  else 0

/-! ## The matcher -/

/-- All `(tid, pid)` cells of the sliced matrix, in the row-major order in
which `torch.nonzero` enumerates them. -/
def allPairs (n_all : Nat) : List (Nat × Nat) :=
  (List.range n_all).flatMap (fun tid => (List.range n_all).map (fun pid => (tid, pid)))

/-- Match list `mapping = (iou > 0.5).nonzero(...)` filtered by
`pred_to_cls[mapping[:, 1]] == target_to_cls[mapping[:, 0]]`. -/
def matchPairs (prediction target : List Nat) (N n_all : Nat)
    (t2c p2c : Nat → Int) : List (Nat × Nat) :=
  (allPairs n_all).filter (fun q =>
    decide ((1 : ℚ) / 2 < iouVal prediction target N n_all q.1 q.2) &&
    decide (p2c q.2 = t2c q.1))

/-! ## The matched-pair loop with temporal identity tracking -/

/-- Dict test `target_id.item() in unique_id_mapping and
unique_id_mapping[target_id.item()] != pred_id.item()`. -/
def isSwitch (uid : Nat → Option Nat) (tid pid : Nat) : Bool :=
  match uid tid with
  | some q => q != pid
  | none => false

/-- The body of `for target_id, pred_id in mapping`, acting on the pair of
the per-frame result and the per-sequence identity map. -/
def processPair (tcons : Bool) (vid n_classes : Nat) (t2c p2c : Nat → Int)
    (iouF : Nat → Nat → ℚ) (st : PanopticResult × (Nat → Option Nat))
    (q : Nat × Nat) : PanopticResult × (Nat → Option Nat) :=
  let tid := q.1
  let pid := q.2
  let cls_id := p2c pid
  if tcons = true ∧ cls_id = (vid : Int) ∧ isSwitch st.2 tid pid = true then
    ({ st.1 with
        false_negative := bump st.1.false_negative (tidx n_classes (t2c tid)) 1,
        false_positive := bump st.1.false_positive (tidx n_classes (p2c pid)) 1 },
      Function.update st.2 tid (some pid))
  else
    ({ st.1 with
        true_positive := bump st.1.true_positive (tidx n_classes cls_id) 1,
        iou := bump st.1.iou (tidx n_classes cls_id) (iouF tid pid) },
      Function.update st.2 tid (some pid))

/-! ## The unmatched loops -/

/-- Row check `tp_mask[target_id, n_classes:].any()` of the boolean match
matrix restricted to predicted thing ids. -/
def thingMatchedRow (mp : List (Nat × Nat)) (n_classes n_inst tid : Nat) : Bool :=
  (List.range' n_classes n_inst).any (fun pid => mp.contains (tid, pid))

/-- Column check `tp_mask[n_classes:, pred_id].any()` of the boolean match
matrix restricted to ground-truth thing ids. -/
def thingMatchedCol (mp : List (Nat × Nat)) (n_classes n_inst pid : Nat) : Bool :=
  (List.range' n_classes n_inst).any (fun tid => mp.contains (tid, pid))

/-- Overlap check `(conf[:, pred_id] > 0).any()`. -/
def colNonzero (prediction target : List Nat) (N n_all pid : Nat) : Bool :=
  (List.range n_all).any (fun tid => conf prediction target N tid pid != 0)

/-- Loop `for target_id in range(n_classes, n_all_things)`: every unmatched
ground-truth thing with a valid class adds one false negative. -/
def fnLoop (mp : List (Nat × Nat)) (t2c : Nat → Int) (n_classes n_inst : Nat)
    (res : PanopticResult) : PanopticResult :=
  (List.range' n_classes n_inst).foldl (fun r tid =>
    if thingMatchedRow mp n_classes n_inst tid then r
    else if t2c tid ≠ -1 then
      { r with false_negative := bump r.false_negative (tidx n_classes (t2c tid)) 1 }
    else r) res

/-- Loop `for pred_id in range(n_classes, n_all_things)`: every unmatched
predicted thing with a valid class and nonzero overlap column adds one
false positive. -/
def fpLoop (mp : List (Nat × Nat)) (p2c : Nat → Int)
    (prediction target : List Nat) (N n_all n_classes n_inst : Nat)
    (res : PanopticResult) : PanopticResult :=
  (List.range' n_classes n_inst).foldl (fun r pid =>
    if thingMatchedCol mp n_classes n_inst pid then r
    else if p2c pid ≠ -1 ∧ colNonzero prediction target N n_all pid = true then
      { r with false_positive := bump r.false_positive (tidx n_classes (p2c pid)) 1 }
    else r) res

/-! ## `panoptic_metrics` -/

/-- Value `int(torch.cat([pred_instance, gt_instance]).max().item())`. -/
def nInstances (pred_instance gt_instance : List Nat) : Nat :=
  (pred_instance ++ gt_instance).foldr max 0

/-- The body of `panoptic_metrics` after the bincount-size check: combine
both mask pairs, compute overlaps, match, run the matched-pair loop and the
two unmatched loops.  Returns the per-frame result together with the
updated identity map. -/
def panoptic_core (tcons : Bool) (vid n_classes : Nat)
    (pred_segmentation pred_instance gt_segmentation gt_instance : List Nat)
    (uid : Nat → Option Nat) : PanopticResult × (Nat → Option Nat) :=
  let n_inst := nInstances pred_instance gt_instance
  let n_all := n_inst + n_classes
  let N := n_all + 1
  let pm := combine_mask pred_segmentation pred_instance n_classes
  let tm := combine_mask gt_segmentation gt_instance n_classes
  let mp := matchPairs pm.1 tm.1 N n_all tm.2 pm.2
  let st := mp.foldl
    (processPair tcons vid n_classes tm.2 pm.2 (iouVal pm.1 tm.1 N n_all))
    (zeroResult, uid)
  let r1 := fnLoop mp tm.2 n_classes n_inst st.1
  let r2 := fpLoop mp pm.2 pm.1 tm.1 N n_all n_classes n_inst r1
  (r2, st.2)

/-- Source method `PanopticMetric.panoptic_metrics`.  The only run-time error the source
can raise here is `ValueError('Incorrect bincount size.')`, which fires
exactly when some encoded pixel value reaches `n_things_and_void ** 2`
(that is when `torch.bincount` returns more than `minlength` entries). -/
def panoptic_metrics (tcons : Bool) (vid n_classes : Nat)
    (pred_segmentation pred_instance gt_segmentation gt_instance : List Nat)
    (uid : Nat → Option Nat) :
    Except String (PanopticResult × (Nat → Option Nat)) :=
  let n_inst := nInstances pred_instance gt_instance
  let N := n_inst + n_classes + 1
  let prediction := (combine_mask pred_segmentation pred_instance n_classes).1
  let target := (combine_mask gt_segmentation gt_instance n_classes).1
  if ((target.zip prediction).map (encodePix N)).all (fun x => x < N * N) then
    Except.ok (panoptic_core tcons vid n_classes
      pred_segmentation pred_instance gt_segmentation gt_instance uid)
  else Except.error "Incorrect bincount size."

/-! ## `PanopticMetric.update` and `PanopticMetric.compute`

A batch is a list of sequences; a sequence is a list of frames; a frame is
a list of pixels, each pixel a `(pred_instance, gt_instance)` pair (so the
predicted and ground-truth grids of a frame have equal shape by
construction, as the source asserts).  The semantic maps are derived inside
`update` by thresholding (`(instance > 0).long()`), exactly as in the
source.  A raised error aborts the remaining frames; the state reached so
far is returned next to the message. -/

/-- Derivation `pred_segmentation = (pred_instance > 0).long()` (and the gt analogue). -/
def deriveSeg (inst : List Nat) : List Nat :=
  inst.map (fun v => if 0 < v then 1 else 0)

/-- One `t` iteration of `update`: run `panoptic_metrics` on one frame and
add the per-frame result into the accumulators, threading the per-sequence
identity map; a previously raised error skips the rest. -/
def stepFrame (tcons : Bool) (vid n_classes : Nat)
    (s : (PanopticResult × (Nat → Option Nat)) × Option String)
    (frame : List (Nat × Nat)) :
    (PanopticResult × (Nat → Option Nat)) × Option String :=
  match s.2 with
  | some _ => s
  | none =>
    let pred_instance := frame.map Prod.fst
    let gt_instance := frame.map Prod.snd
    match panoptic_metrics tcons vid n_classes
        (deriveSeg pred_instance) pred_instance
        (deriveSeg gt_instance) gt_instance s.1.2 with
    | Except.error e => (s.1, some e)
    | Except.ok r => ((addResult s.1.1 r.1, r.2), none)

/-- One `b` iteration of `update`: a fresh, empty identity map per batch
element, then the frames in temporal order. -/
def stepSeq (tcons : Bool) (vid n_classes : Nat)
    (s : PanopticResult × Option String) (frames : List (List (Nat × Nat))) :
    PanopticResult × Option String :=
  match s.2 with
  | some _ => s
  | none =>
    let r := frames.foldl (stepFrame tcons vid n_classes) ((s.1, fun _ => none), none)
    (r.1.1, r.2)

/-- All ground-truth instance values of the whole batch. -/
def allGt (batch : List (List (List (Nat × Nat)))) : List Nat :=
  batch.flatMap (fun sq => sq.flatMap (fun fr => fr.map Prod.snd))

/-- Source method `PanopticMetric.update`.  The guard models
`assert gt_instance.min() == 0, 'ID 0 of gt_instance must be background'`,
which runs before any accumulator is touched; the second component carries
the raised message, the first the accumulator state the caller observes. -/
def PanopticMetric.update (tcons : Bool) (vid n_classes : Nat)
    (st : PanopticResult) (batch : List (List (List (Nat × Nat)))) :
    PanopticResult × Option String :=
  if (allGt batch).min? = some 0 then
    batch.foldl (stepSeq tcons vid n_classes) (st, none)
  else (st, some "ID 0 of gt_instance must be background")

/-- Source method `PanopticMetric.compute`, per class: `(pq, sq, rq)`. -/
def PanopticMetric.compute (st : PanopticResult) (c : Nat) : ℚ × ℚ × ℚ :=
  let denom := max (st.true_positive c + st.false_positive c / 2
    + st.false_negative c / 2) 1
  (st.iou c / denom,
   st.iou c / max (st.true_positive c) 1,
   st.true_positive c / denom)

/-! ## Basic facts about the matcher -/

theorem mem_allPairs (n_all : Nat) (q : Nat × Nat) :
    q ∈ allPairs n_all ↔ q.1 < n_all ∧ q.2 < n_all := by
  cases q with
  | mk a b =>
    simp only [allPairs, List.mem_flatMap, List.mem_map, List.mem_range,
      Prod.mk.injEq]
    constructor
    · rintro ⟨t, ht, p, hp, rfl, rfl⟩
      exact ⟨ht, hp⟩
    · rintro ⟨h1, h2⟩
      exact ⟨a, h1, b, h2, rfl, rfl⟩

/-- What the exact-real reading of the written epsilon formula would do:
`(c + 1e-9) / (u + 1e-9) > 1/2` holds iff `u ≤ 2c`, i.e. it would admit
the `IoU = 0.5` boundary that the `float32` execution (and `iouVal`)
excludes. -/
theorem half_lt_eps_div (c u : Nat) (hu : 0 < u) :
    ((1 : ℚ) / 2 < ((c : ℚ) + eps) / ((u : ℚ) + eps)) ↔ u ≤ 2 * c := by
  have h2 : (0 : ℚ) < (u : ℚ) + eps := by
    have : (0 : ℚ) ≤ (u : ℚ) := by positivity
    unfold eps; linarith
  rw [div_lt_div_iff₀ (by norm_num) h2]
  constructor
  · intro h
    by_contra hc
    push_neg at hc
    have huc : (2 * c + 1 : ℚ) ≤ (u : ℚ) := by exact_mod_cast hc
    unfold eps at h
    linarith
  · intro h
    have huq : ((u : ℚ)) ≤ 2 * c := by exact_mod_cast h
    unfold eps
    linarith

/-- Strict comparison of an integer quotient with one half. -/
theorem half_lt_div (c u : Nat) (hu : 0 < u) :
    ((1 : ℚ) / 2 < (c : ℚ) / (u : ℚ)) ↔ u < 2 * c := by
  have h2 : (0 : ℚ) < (u : ℚ) := by exact_mod_cast hu
  rw [div_lt_div_iff₀ (by norm_num) h2]
  constructor
  · intro h
    have huc : ((u : ℚ)) < 2 * c := by linarith
    exact_mod_cast huc
  · intro h
    have huc : ((u : ℚ)) < 2 * c := by exact_mod_cast h
    linarith

/-- The pair `(tid, pid)` survives the IoU threshold exactly when the
intersection is a strict majority of the union: the `float32` form of the
`> 0.5` comparison is the strict `union < 2 * intersection` test on the
integer pixel counts. -/
theorem iou_gt_half_iff (prediction target : List Nat) (N n_all tid pid : Nat) :
    ((1 : ℚ) / 2 < iouVal prediction target N n_all tid pid) ↔
      0 < unionArea prediction target N n_all tid pid ∧
        unionArea prediction target N n_all tid pid <
          2 * conf prediction target N tid pid := by
  unfold iouVal
  by_cases h : 0 < unionArea prediction target N n_all tid pid
  · rw [if_pos h, half_lt_div _ _ h]
    tauto
  · rw [if_neg h]
    simp [h]

theorem mem_matchPairs_iff (prediction target : List Nat) (N n_all : Nat)
    (t2c p2c : Nat → Int) (tid pid : Nat) :
    (tid, pid) ∈ matchPairs prediction target N n_all t2c p2c ↔
      tid < n_all ∧ pid < n_all ∧
      0 < unionArea prediction target N n_all tid pid ∧
      unionArea prediction target N n_all tid pid <
        2 * conf prediction target N tid pid ∧
      p2c pid = t2c tid := by
  unfold matchPairs
  rw [List.mem_filter, mem_allPairs]
  simp only [Bool.and_eq_true, decide_eq_true_eq, iou_gt_half_iff]
  tauto

/-- List-range sums as `Finset.range` sums. -/
theorem listRangeSum_eq (n : Nat) (f : Nat → Nat) :
    ((List.range n).map f).sum = ∑ i ∈ Finset.range n, f i := by
  induction n with
  | zero => simp
  | succ m ih => rw [List.range_succ, Finset.sum_range_succ, List.map_append,
      List.sum_append, ih]; simp

/-- A single entry of the sliced matrix is bounded by its row sum. -/
theorem conf_le_rowSum (prediction target : List Nat) (N n_all tid pid : Nat)
    (h : pid < n_all) :
    conf prediction target N tid pid ≤ rowSum prediction target N n_all tid := by
  unfold rowSum
  exact List.single_le_sum (fun x _ => Nat.zero_le x) _
    (List.mem_map.2 ⟨pid, List.mem_range.2 h, rfl⟩)

/-- A single entry of the sliced matrix is bounded by its column sum. -/
theorem conf_le_colSum (prediction target : List Nat) (N n_all tid pid : Nat)
    (h : tid < n_all) :
    conf prediction target N tid pid ≤ colSum prediction target N n_all pid := by
  unfold colSum
  exact List.single_le_sum (fun x _ => Nat.zero_le x) _
    (List.mem_map.2 ⟨tid, List.mem_range.2 h, rfl⟩)

/-- Two distinct entries of one row are jointly bounded by the row sum. -/
theorem conf_two_le_rowSum (prediction target : List Nat) (N n_all tid p1 p2 : Nat)
    (h1 : p1 < n_all) (h2 : p2 < n_all) (hne : p1 ≠ p2) :
    conf prediction target N tid p1 + conf prediction target N tid p2 ≤
      rowSum prediction target N n_all tid := by
  unfold rowSum
  rw [listRangeSum_eq]
  have hsub : ({p1, p2} : Finset Nat) ⊆ Finset.range n_all := by
    intro x hx
    rcases Finset.mem_insert.1 hx with rfl | hx
    · exact Finset.mem_range.2 h1
    · rw [Finset.mem_singleton] at hx
      subst hx
      exact Finset.mem_range.2 h2
  calc conf prediction target N tid p1 + conf prediction target N tid p2
      = ∑ p ∈ ({p1, p2} : Finset Nat), conf prediction target N tid p := by
        rw [Finset.sum_pair hne]
    _ ≤ ∑ p ∈ Finset.range n_all, conf prediction target N tid p :=
        Finset.sum_le_sum_of_subset hsub

/-- Two distinct entries of one column are jointly bounded by the column sum. -/
theorem conf_two_le_colSum (prediction target : List Nat) (N n_all t1 t2 pid : Nat)
    (h1 : t1 < n_all) (h2 : t2 < n_all) (hne : t1 ≠ t2) :
    conf prediction target N t1 pid + conf prediction target N t2 pid ≤
      colSum prediction target N n_all pid := by
  unfold colSum
  rw [listRangeSum_eq]
  have hsub : ({t1, t2} : Finset Nat) ⊆ Finset.range n_all := by
    intro x hx
    rcases Finset.mem_insert.1 hx with rfl | hx
    · exact Finset.mem_range.2 h1
    · rw [Finset.mem_singleton] at hx
      subst hx
      exact Finset.mem_range.2 h2
  calc conf prediction target N t1 pid + conf prediction target N t2 pid
      = ∑ t ∈ ({t1, t2} : Finset Nat), conf prediction target N t pid := by
        rw [Finset.sum_pair hne]
    _ ≤ ∑ t ∈ Finset.range n_all, conf prediction target N t pid :=
        Finset.sum_le_sum_of_subset hsub

/-- With a strict majority overlap, an entry dominates half its row sum and
half its column sum. -/
theorem strict_overlap_bounds (prediction target : List Nat)
    (N n_all tid pid : Nat) (ht : tid < n_all) (hp : pid < n_all)
    (hs : unionArea prediction target N n_all tid pid <
      2 * conf prediction target N tid pid) :
    rowSum prediction target N n_all tid < 2 * conf prediction target N tid pid ∧
    colSum prediction target N n_all pid < 2 * conf prediction target N tid pid := by
  have hr := conf_le_rowSum prediction target N n_all tid pid hp
  have hc := conf_le_colSum prediction target N n_all tid pid ht
  unfold unionArea at hs
  omega

/-! ## Claim C2 -/

/-- C2: the matcher's threshold is strict.  Membership in the match set is
equivalent to `union > 0 ∧ union < 2 * intersection ∧ classes agree` (ids
in range), so a pair whose exact IoU is exactly 0.5 (`union = 2 *
intersection`) is NOT matched, while a pair with exact IoU strictly above
0.5 and agreeing classes is; and whenever the union is positive the value
compared against 0.5 is the quotient `intersection / union` — the value
the source's `float32` expression `(conf + 1e-9) / (union + 1e-9)`
denotes for integer pixel counts, the epsilon being absorbed by rounding
(see `iouVal` and, for the exact-real reading of the written formula,
`half_lt_eps_div`). -/
theorem C2_threshold (prediction target : List Nat) (N n_all : Nat)
    (t2c p2c : Nat → Int) (tid pid : Nat) :
    ((tid, pid) ∈ matchPairs prediction target N n_all t2c p2c ↔
      tid < n_all ∧ pid < n_all ∧
      0 < unionArea prediction target N n_all tid pid ∧
      unionArea prediction target N n_all tid pid <
        2 * conf prediction target N tid pid ∧
      p2c pid = t2c tid) ∧
    (0 < unionArea prediction target N n_all tid pid →
      iouVal prediction target N n_all tid pid =
        (conf prediction target N tid pid : ℚ) /
          (unionArea prediction target N n_all tid pid : ℚ)) :=
  ⟨mem_matchPairs_iff prediction target N n_all t2c p2c tid pid,
    fun h => by unfold iouVal; rw [if_pos h]⟩

/-- Witness for C2, both sides of the boundary: on a two-pixel frame where
the predicted thing covers exactly one of the two ground-truth pixels
(intersection 1, union 2 — exact IoU exactly 0.5, classes agreeing) the
pair is NOT in the match set; on the self-match frame (IoU 1) the pair IS,
and the compared IoU value is the plain quotient. -/
theorem C2_witness :
    (2, 2) ∉ matchPairs (combine_mask [1, 0] [1, 0] 2).1
      (combine_mask [1, 1] [1, 1] 2).1 4 3
      (combine_mask [1, 1] [1, 1] 2).2 (combine_mask [1, 0] [1, 0] 2).2 ∧
    (2, 2) ∈ matchPairs (combine_mask [1, 1] [1, 1] 2).1
      (combine_mask [1, 1] [1, 1] 2).1 4 3
      (combine_mask [1, 1] [1, 1] 2).2 (combine_mask [1, 1] [1, 1] 2).2 ∧
    iouVal (combine_mask [1, 1] [1, 1] 2).1 (combine_mask [1, 1] [1, 1] 2).1 4 3 2 2 =
      (((2 : Nat) : ℚ)) / (((2 : Nat) : ℚ)) := by
  have hb := C2_threshold (combine_mask [1, 0] [1, 0] 2).1
    (combine_mask [1, 1] [1, 1] 2).1 4 3
    (combine_mask [1, 1] [1, 1] 2).2 (combine_mask [1, 0] [1, 0] 2).2 2 2
  have h := C2_threshold (combine_mask [1, 1] [1, 1] 2).1
    (combine_mask [1, 1] [1, 1] 2).1 4 3
    (combine_mask [1, 1] [1, 1] 2).2 (combine_mask [1, 1] [1, 1] 2).2 2 2
  refine ⟨?_, h.1.mpr ⟨by decide, by decide, by decide, by decide, by decide⟩, ?_⟩
  · intro hmem
    have hm := hb.1.mp hmem
    exact absurd hm.2.2.2.1 (by decide)
  · rw [h.2 (by decide)]
    rw [show conf (combine_mask [1, 1] [1, 1] 2).1 (combine_mask [1, 1] [1, 1] 2).1 4 2 2 = 2 from by decide]
    rw [show unionArea (combine_mask [1, 1] [1, 1] 2).1 (combine_mask [1, 1] [1, 1] 2).1 4 3 2 2 = 2 from by decide]

/-! ## Claim C6 -/

/-- C6: the match set is one-to-one on labels — every matched pair has a
strict majority overlap (`union < 2 * intersection`, the strict `float32`
threshold), and two such pairs cannot share a row or a column of the
intersection matrix, so each ground-truth label has at most one predicted
match and each predicted label at most one ground-truth match. -/
theorem C6_unique_match (prediction target : List Nat) (N n_all : Nat)
    (t2c p2c : Nat → Int) :
    (∀ tid p1 p2,
      (tid, p1) ∈ matchPairs prediction target N n_all t2c p2c →
      (tid, p2) ∈ matchPairs prediction target N n_all t2c p2c →
      p1 = p2) ∧
    (∀ t1 t2 pid,
      (t1, pid) ∈ matchPairs prediction target N n_all t2c p2c →
      (t2, pid) ∈ matchPairs prediction target N n_all t2c p2c →
      t1 = t2) := by
  constructor
  · intro tid p1 p2 hm1 hm2
    rw [mem_matchPairs_iff] at hm1 hm2
    by_contra hne
    have hb1 := (strict_overlap_bounds prediction target N n_all tid p1
      hm1.1 hm1.2.1 hm1.2.2.2.1).1
    have hb2 := (strict_overlap_bounds prediction target N n_all tid p2
      hm2.1 hm2.2.1 hm2.2.2.2.1).1
    have hsum := conf_two_le_rowSum prediction target N n_all tid p1 p2
      hm1.2.1 hm2.2.1 hne
    omega
  · intro t1 t2 pid hm1 hm2
    rw [mem_matchPairs_iff] at hm1 hm2
    by_contra hne
    have hb1 := (strict_overlap_bounds prediction target N n_all t1 pid
      hm1.1 hm1.2.1 hm1.2.2.2.1).2
    have hb2 := (strict_overlap_bounds prediction target N n_all t2 pid
      hm2.1 hm2.2.1 hm2.2.2.2.1).2
    have hsum := conf_two_le_colSum prediction target N n_all t1 t2 pid
      hm1.1 hm2.1 hne
    omega

/-- Witness for C6: on a self-match frame the pair (2, 2) is in the match
set and uniqueness applies to it. -/
theorem C6_witness :
    (2, 2) ∈ matchPairs (combine_mask [1, 1] [1, 1] 2).1
      (combine_mask [1, 1] [1, 1] 2).1 4 3
      (combine_mask [1, 1] [1, 1] 2).2 (combine_mask [1, 1] [1, 1] 2).2 ∧
    (2 : Nat) = 2 := by
  have hm : (2, 2) ∈ matchPairs (combine_mask [1, 1] [1, 1] 2).1
      (combine_mask [1, 1] [1, 1] 2).1 4 3
      (combine_mask [1, 1] [1, 1] 2).2 (combine_mask [1, 1] [1, 1] 2).2 :=
    (mem_matchPairs_iff _ _ 4 3 _ _ 2 2).mpr
      ⟨by decide, by decide, by decide, by decide, by decide⟩
  exact ⟨hm, (C6_unique_match (combine_mask [1, 1] [1, 1] 2).1
      (combine_mask [1, 1] [1, 1] 2).1 4 3
      (combine_mask [1, 1] [1, 1] 2).2 (combine_mask [1, 1] [1, 1] 2).2).1
    2 2 2 hm hm⟩

/-! ## Claim C4 -/

/-- C4: `compute` returns, per class,
`PQ = IoU_sum / max(TP + FP/2 + FN/2, 1)`, `SQ = IoU_sum / max(TP, 1)` and
`RQ = TP / max(TP + FP/2 + FN/2, 1)`; both denominators are strictly
positive (no division by zero occurs), and a class whose four accumulators
are all zero gets `(0, 0, 0)`. -/
theorem C4_compute (st : PanopticResult) (c : Nat) :
    (PanopticMetric.compute st c).1 =
      st.iou c / max (st.true_positive c + st.false_positive c / 2
        + st.false_negative c / 2) 1 ∧
    (PanopticMetric.compute st c).2.1 =
      st.iou c / max (st.true_positive c) 1 ∧
    (PanopticMetric.compute st c).2.2 =
      st.true_positive c / max (st.true_positive c + st.false_positive c / 2
        + st.false_negative c / 2) 1 ∧
    (0 : ℚ) < max (st.true_positive c + st.false_positive c / 2
      + st.false_negative c / 2) 1 ∧
    (0 : ℚ) < max (st.true_positive c) 1 ∧
    (st.iou c = 0 → st.true_positive c = 0 → st.false_positive c = 0 →
      st.false_negative c = 0 → PanopticMetric.compute st c = (0, 0, 0)) := by
  refine ⟨rfl, rfl, rfl,
    lt_of_lt_of_le one_pos (le_max_right _ _),
    lt_of_lt_of_le one_pos (le_max_right _ _), ?_⟩
  intro h1 h2 h3 h4
  unfold PanopticMetric.compute
  rw [h1, h2, h3, h4]
  norm_num

/-- Witness for C4: for the zero-initialised state all three metrics of
class 0 are zero. -/
theorem C4_witness : PanopticMetric.compute zeroResult 0 = (0, 0, 0) :=
  (C4_compute zeroResult 0).2.2.2.2.2 rfl rfl rfl rfl

/-! ## Claim C9 -/

/-- C9: for every class whose accumulated true-positive count is at least
one, `PQ = SQ * RQ` holds exactly over the rationals. -/
theorem C9_pq_decomposition (st : PanopticResult) (c : Nat)
    (h : 1 ≤ st.true_positive c) :
    (PanopticMetric.compute st c).1 =
      (PanopticMetric.compute st c).2.1 * (PanopticMetric.compute st c).2.2 := by
  have htp : (0 : ℚ) < st.true_positive c := lt_of_lt_of_le one_pos h
  unfold PanopticMetric.compute
  simp only [max_eq_left h]
  rw [div_mul_div_comm, mul_comm (st.iou c) (st.true_positive c),
    mul_div_mul_left _ _ (ne_of_gt htp)]

/-- Witness for C9 at a state with one true positive of class 0. -/
theorem C9_witness :
    (1 : ℚ) ≤ (1 : ℚ) ∧
    (PanopticMetric.compute ⟨fun _ => 1, fun _ => 1, fun _ => 0, fun _ => 0⟩ 0).1 =
      (PanopticMetric.compute ⟨fun _ => 1, fun _ => 1, fun _ => 0, fun _ => 0⟩ 0).2.1 *
      (PanopticMetric.compute ⟨fun _ => 1, fun _ => 1, fun _ => 0, fun _ => 0⟩ 0).2.2 :=
  ⟨le_refl 1,
   C9_pq_decomposition ⟨fun _ => 1, fun _ => 1, fun _ => 0, fun _ => 0⟩ 0 (le_refl 1)⟩

/-! ## Claim C1 -/

/-- The dict test of the switch condition, as a proposition. -/
theorem isSwitch_iff (uid : Nat → Option Nat) (tid pid : Nat) :
    isSwitch uid tid pid = true ↔ ∃ q, uid tid = some q ∧ q ≠ pid := by
  unfold isSwitch
  cases h : uid tid with
  | none => simp
  | some a => simp [bne_iff_ne]

/-- Indexing with a nonnegative class hits that class slot. -/
theorem tidx_natCast (n c : Nat) : tidx n (c : Int) = c := by
  unfold tidx
  rw [if_neg (by exact_mod_cast Nat.not_lt_zero c)]
  exact Int.toNat_natCast c

/-- C1: one iteration of the matched-pair loop.  For a matched pair of
class `c`, if temporal checking is on, the class is the trackable one and
the identity map holds a different predicted id for this ground-truth id,
then exactly one false negative and one false positive of class `c` are
added, true positives and IoU are untouched, and the identity map is
updated to the current predicted id; in every other case exactly one true
positive of class `c` is added, the pair's IoU is accumulated, false
counts are untouched, and the identity map is updated the same way. -/
theorem C1_identity_switch (tcons : Bool) (vid n_classes : Nat)
    (t2c p2c : Nat → Int) (iouF : Nat → Nat → ℚ) (res : PanopticResult)
    (uid : Nat → Option Nat) (tid pid c : Nat)
    (hc : t2c tid = (c : Int)) (hagree : p2c pid = t2c tid) :
    ((tcons = true ∧ p2c pid = (vid : Int) ∧ (∃ q, uid tid = some q ∧ q ≠ pid)) →
      (∀ d,
        (processPair tcons vid n_classes t2c p2c iouF (res, uid) (tid, pid)).1.false_negative d
          = res.false_negative d + (if d = c then 1 else 0) ∧
        (processPair tcons vid n_classes t2c p2c iouF (res, uid) (tid, pid)).1.false_positive d
          = res.false_positive d + (if d = c then 1 else 0) ∧
        (processPair tcons vid n_classes t2c p2c iouF (res, uid) (tid, pid)).1.true_positive d
          = res.true_positive d ∧
        (processPair tcons vid n_classes t2c p2c iouF (res, uid) (tid, pid)).1.iou d
          = res.iou d) ∧
      (processPair tcons vid n_classes t2c p2c iouF (res, uid) (tid, pid)).2
        = Function.update uid tid (some pid)) ∧
    (¬(tcons = true ∧ p2c pid = (vid : Int) ∧ (∃ q, uid tid = some q ∧ q ≠ pid)) →
      (∀ d,
        (processPair tcons vid n_classes t2c p2c iouF (res, uid) (tid, pid)).1.true_positive d
          = res.true_positive d + (if d = c then 1 else 0) ∧
        (processPair tcons vid n_classes t2c p2c iouF (res, uid) (tid, pid)).1.iou d
          = res.iou d + (if d = c then iouF tid pid else 0) ∧
        (processPair tcons vid n_classes t2c p2c iouF (res, uid) (tid, pid)).1.false_negative d
          = res.false_negative d ∧
        (processPair tcons vid n_classes t2c p2c iouF (res, uid) (tid, pid)).1.false_positive d
          = res.false_positive d) ∧
      (processPair tcons vid n_classes t2c p2c iouF (res, uid) (tid, pid)).2
        = Function.update uid tid (some pid)) := by
  have hidx : tidx n_classes (t2c tid) = c := by rw [hc, tidx_natCast]
  have hidxp : tidx n_classes (p2c pid) = c := by rw [hagree, hc, tidx_natCast]
  have hbump : ∀ (f : Nat → ℚ) (v : ℚ) (d : Nat),
      bump f c v d = f d + (if d = c then v else 0) := by
    intro f v d
    unfold bump
    rw [Function.update_apply]
    by_cases hd : d = c
    · subst hd; simp
    · simp [hd]
  constructor
  · intro hcond
    have hsw : isSwitch uid tid pid = true := (isSwitch_iff uid tid pid).mpr hcond.2.2
    have : processPair tcons vid n_classes t2c p2c iouF (res, uid) (tid, pid) =
        ({ res with
            false_negative := bump res.false_negative (tidx n_classes (t2c tid)) 1,
            false_positive := bump res.false_positive (tidx n_classes (p2c pid)) 1 },
          Function.update uid tid (some pid)) := by
      unfold processPair
      rw [if_pos ⟨hcond.1, hcond.2.1, hsw⟩]
    rw [this]
    refine ⟨fun d => ⟨?_, ?_, rfl, rfl⟩, rfl⟩
    · simpa [hidx] using hbump res.false_negative 1 d
    · simpa [hidxp] using hbump res.false_positive 1 d
  · intro hcond
    have hsw : ¬(tcons = true ∧ p2c pid = (vid : Int) ∧ isSwitch uid tid pid = true) := by
      intro hx
      exact hcond ⟨hx.1, hx.2.1, (isSwitch_iff uid tid pid).mp hx.2.2⟩
    have : processPair tcons vid n_classes t2c p2c iouF (res, uid) (tid, pid) =
        ({ res with
            true_positive := bump res.true_positive (tidx n_classes (p2c pid)) 1,
            iou := bump res.iou (tidx n_classes (p2c pid)) (iouF tid pid) },
          Function.update uid tid (some pid)) := by
      unfold processPair
      rw [if_neg hsw]
    rw [this]
    refine ⟨fun d => ⟨?_, ?_, rfl, rfl⟩, rfl⟩
    · simpa [hidxp] using hbump res.true_positive 1 d
    · simpa [hidxp] using hbump res.iou (iouF tid pid) d

/-- Witness for C1: with the identity map holding predicted id 5 for
ground-truth id 2, processing the matched pair (2, 3) of the trackable
class 1 records one false negative and one false positive of class 1, no
true positive, and rebinds the map. -/
theorem C1_witness :
    ((fun _ : Nat => (1 : Int)) 2 = ((1 : Nat) : Int)) ∧
    (processPair true 1 2 (fun _ => 1) (fun _ => 1) (fun _ _ => 1)
        (zeroResult, fun k => if k = 2 then some 5 else none) (2, 3)).1.false_negative 1
      = zeroResult.false_negative 1 + 1 ∧
    (processPair true 1 2 (fun _ => 1) (fun _ => 1) (fun _ _ => 1)
        (zeroResult, fun k => if k = 2 then some 5 else none) (2, 3)).1.true_positive 1
      = zeroResult.true_positive 1 := by
  have h := C1_identity_switch true 1 2 (fun _ => 1) (fun _ => 1) (fun _ _ => 1)
    zeroResult (fun k => if k = 2 then some 5 else none) 2 3 1 rfl rfl
  have hcond : (true = true ∧ (fun _ : Nat => (1 : Int)) 3 = ((1 : Nat) : Int) ∧
      (∃ q, (fun k : Nat => if k = 2 then some 5 else none) 2 = some q ∧ q ≠ 3)) :=
    ⟨rfl, rfl, 5, rfl, by decide⟩
  refine ⟨rfl, ?_, ?_⟩
  · rw [((h.1 hcond).1 1).1]
    norm_num
  · exact ((h.1 hcond).1 1).2.2.1

/-! ## Claim C5: the combined labelling -/

/-- The three mutation passes of `combine_mask` compute, per pixel:
void segmentation gives 0, a positive instance id `i` gives `i + n_classes`,
and a pure-stuff pixel of class `s` gives `s + 1`. -/
theorem combine_fst_eq (segmentation inst : List Nat) (n_classes : Nat) :
    (combine_mask segmentation inst n_classes).1 =
      (segmentation.zip inst).map (fun p =>
        if n_classes ≤ p.1 then 0
        else if 0 < p.2 then p.2 + n_classes
        else p.1 + 1) := by
  induction segmentation generalizing inst with
  | nil => simp [combine_mask]
  | cons s tl ih =>
    cases inst with
    | nil => simp [combine_mask]
    | cons i itl =>
      have htl := ih itl
      simp only [combine_mask, List.zip_cons_cons, List.map_cons] at htl ⊢
      rw [htl]
      congr 1
      by_cases hs : n_classes ≤ s
      · simp [hs]
      · by_cases hi : 0 < i
        · simp only [if_neg hs, if_pos hi]
          omega
        · simp [hs, hi]

/-- If no pixel of the list writes table index `k`, the scatter leaves the
initial value at `k`. -/
theorem foldWrite_eq_init (n_classes : Nat) (pix : List (Nat × Nat))
    (m : Nat → Int) (k : Nat)
    (h : ∀ si ∈ pix, ¬(0 < si.2 ∧ si.1 < n_classes ∧ si.2 - 1 + n_classes = k)) :
    pix.foldl (writeStep n_classes) m k = m k := by
  induction pix generalizing m with
  | nil => rfl
  | cons hd tl ih =>
    rw [List.foldl_cons]
    rw [ih _ (fun si hsi => h si (List.mem_cons_of_mem hd hsi))]
    unfold writeStep
    by_cases hw : 0 < hd.2 ∧ hd.1 < n_classes
    · rw [if_pos hw, Function.update_apply,
        if_neg (fun hk => h hd (List.mem_cons_self hd tl) ⟨hw.1, hw.2, by omega⟩)]
    · rw [if_neg hw]

/-- If some pixel writes table index `k`, the scatter ends with the class
of one of the writing pixels at `k`. -/
theorem foldWrite_writer (n_classes : Nat) (pix : List (Nat × Nat))
    (m : Nat → Int) (k : Nat)
    (h : ∃ si ∈ pix, 0 < si.2 ∧ si.1 < n_classes ∧ si.2 - 1 + n_classes = k) :
    ∃ si ∈ pix, (0 < si.2 ∧ si.1 < n_classes ∧ si.2 - 1 + n_classes = k) ∧
      pix.foldl (writeStep n_classes) m k = (si.1 : Int) := by
  induction pix generalizing m with
  | nil => simp at h
  | cons hd tl ih =>
    rw [List.foldl_cons]
    by_cases htl : ∃ si ∈ tl, 0 < si.2 ∧ si.1 < n_classes ∧ si.2 - 1 + n_classes = k
    · obtain ⟨si, hsi, hw, heq⟩ := ih (writeStep n_classes m hd) htl
      exact ⟨si, List.mem_cons_of_mem hd hsi, hw, heq⟩
    · have hhd : 0 < hd.2 ∧ hd.1 < n_classes ∧ hd.2 - 1 + n_classes = k := by
        obtain ⟨si, hsi, hw⟩ := h
        rcases List.mem_cons.1 hsi with rfl | hm
        · exact hw
        · exact absurd ⟨si, hm, hw⟩ htl
      refine ⟨hd, List.mem_cons_self hd tl, hhd, ?_⟩
      rw [foldWrite_eq_init n_classes tl _ k
        (fun si hsi hw => htl ⟨si, hsi, hw⟩)]
      unfold writeStep
      rw [if_pos ⟨hhd.1, hhd.2.1⟩, hhd.2.2, Function.update_same]

/-- The scatter result at an index is either untouched or the class of a
pixel that wrote this index. -/
theorem foldWrite_cases (n_classes : Nat) (pix : List (Nat × Nat))
    (m : Nat → Int) (k : Nat) :
    pix.foldl (writeStep n_classes) m k = m k ∨
      ∃ si ∈ pix, (0 < si.2 ∧ si.1 < n_classes ∧ si.2 - 1 + n_classes = k) ∧
        pix.foldl (writeStep n_classes) m k = (si.1 : Int) := by
  by_cases h : ∃ si ∈ pix, 0 < si.2 ∧ si.1 < n_classes ∧ si.2 - 1 + n_classes = k
  · exact Or.inr (foldWrite_writer n_classes pix m k h)
  · exact Or.inl (foldWrite_eq_init n_classes pix m k (by push_neg at h; exact fun si hsi hw => (h si hsi hw.1 hw.2.1) hw.2.2))

/-- C5: per pixel, the combined map gives label 0 to void pixels, label
`class + 1 ∈ [1, n_classes]` to pure-stuff pixels, and label
`instance + n_classes ∈ (n_classes, n_classes + n_instances]` to instance
pixels; and for an instance id `k` whose pixels all carry one valid class
`c` (and which has at least one pixel with a valid class), the
label-to-class table maps the instance's combined label `k + n_classes`
(stored, like everywhere in the code, at table index `k + n_classes - 1`)
back to `c`. -/
theorem C5_combine_mask (segmentation inst : List Nat) (n_classes n_inst : Nat)
    (hv : ∀ v ∈ inst, v ≤ n_inst) :
    ((combine_mask segmentation inst n_classes).1 =
      (segmentation.zip inst).map (fun p =>
        if n_classes ≤ p.1 then 0
        else if 0 < p.2 then p.2 + n_classes
        else p.1 + 1)) ∧
    (∀ p ∈ segmentation.zip inst, p.1 < n_classes →
      (p.2 = 0 → 1 ≤ p.1 + 1 ∧ p.1 + 1 ≤ n_classes) ∧
      (0 < p.2 → n_classes < p.2 + n_classes ∧
        p.2 + n_classes ≤ n_classes + n_inst)) ∧
    (∀ k c : Nat, 0 < k → c < n_classes →
      (∀ p ∈ segmentation.zip inst, p.2 = k → p.1 = c) →
      (∃ p ∈ segmentation.zip inst, p.2 = k ∧ p.1 < n_classes) →
      (combine_mask segmentation inst n_classes).2 (k - 1 + n_classes) = (c : Int)) := by
  refine ⟨combine_fst_eq segmentation inst n_classes, ?_, ?_⟩
  · intro p hp hcls
    have hmem := List.of_mem_zip hp
    have hle := hv p.2 hmem.2
    exact ⟨fun _ => by omega, fun hpos => by omega⟩
  · intro k c hk hcn hall hex
    have hkey : ¬(k - 1 + n_classes < n_classes) := by omega
    show label_to_class n_classes (segmentation.zip inst) (k - 1 + n_classes) = (c : Int)
    unfold label_to_class
    rw [if_neg hkey]
    obtain ⟨p, hp, hpk, hplt⟩ := hex
    obtain ⟨si, hsi, hw, heq⟩ := foldWrite_writer n_classes (segmentation.zip inst)
      (fun _ => (-1 : Int)) (k - 1 + n_classes)
      ⟨p, hp, by omega, hplt, by rw [hpk]⟩
    have hsik : si.2 = k := by omega
    rw [show toClsFold n_classes (segmentation.zip inst) = (segmentation.zip inst).foldl (writeStep n_classes) (fun _ => (-1 : Int)) from rfl, heq,
      hall si hsi hsik]

/-- Witness for C5 on a concrete two-pixel frame: instance 1 of class 1
occupies both pixels; its combined label is 3 and the table maps index 2
(label 3 minus one) back to class 1. -/
theorem C5_witness :
    (∀ v ∈ [1, 1], v ≤ 1) ∧
    (combine_mask [1, 1] [1, 1] 2).1 = [3, 3] ∧
    (combine_mask [1, 1] [1, 1] 2).2 (1 - 1 + 2) = ((1 : Nat) : Int) := by
  have h := C5_combine_mask [1, 1] [1, 1] 2 1 (by decide)
  refine ⟨by decide, ?_, ?_⟩
  · rw [h.1]; decide
  · exact h.2.2 1 1 (by decide) (by decide) (by decide) ⟨(1, 1), by decide, rfl, by decide⟩

/-! ## Claim C3: the unmatched loops -/

/-- Evaluation of a `+= 1`-style update at an arbitrary class index. -/
theorem bump_apply (f : Nat → ℚ) (i : Nat) (v : ℚ) (d : Nat) :
    bump f i v d = if d = i then f d + v else f d := by
  unfold bump
  rw [Function.update_apply]
  by_cases hd : d = i
  · rw [if_pos hd, if_pos hd, hd]
  · rw [if_neg hd, if_neg hd]

/-- Counting form of the false-negative loop, for an arbitrary id list. -/
theorem fnLoop_fold (mp : List (Nat × Nat)) (t2c : Nat → Int)
    (n_classes n_inst : Nat) (l : List Nat) (res : PanopticResult) (d : Nat) :
    (l.foldl (fun r tid =>
      if thingMatchedRow mp n_classes n_inst tid then r
      else if t2c tid ≠ -1 then
        { r with false_negative := bump r.false_negative (tidx n_classes (t2c tid)) 1 }
      else r) res).false_negative d
      = res.false_negative d +
        ((l.countP (fun tid => !thingMatchedRow mp n_classes n_inst tid &&
          (t2c tid != -1) && (tidx n_classes (t2c tid) == d))) : ℚ) := by
  induction l generalizing res with
  | nil => simp
  | cons a l ih =>
    rw [List.foldl_cons, ih, List.countP_cons]
    have hstep : (if thingMatchedRow mp n_classes n_inst a then res
        else if t2c a ≠ -1 then
          { res with false_negative := bump res.false_negative (tidx n_classes (t2c a)) 1 }
        else res).false_negative d
        = res.false_negative d +
          (if (!thingMatchedRow mp n_classes n_inst a &&
            (t2c a != -1) && (tidx n_classes (t2c a) == d)) then (1 : ℚ) else 0) := by
      by_cases hm : thingMatchedRow mp n_classes n_inst a
      · simp [hm]
      · by_cases hv : t2c a = -1
        · simp [hm, hv]
        · by_cases hd : d = tidx n_classes (t2c a)
          · simp [hm, hv, bump_apply, hd]
          · simp [hm, hv, bump_apply, hd, Ne.symm hd]
    rw [hstep]
    by_cases hp : (!thingMatchedRow mp n_classes n_inst a &&
        (t2c a != -1) && (tidx n_classes (t2c a) == d)) = true
    · simp only [hp, if_true, if_pos rfl]
      push_cast
      ring
    · rw [Bool.not_eq_true] at hp
      simp only [hp, Bool.false_eq_true, if_false]
      push_cast
      ring

/-- Counting form of the false-positive loop, for an arbitrary id list. -/
theorem fpLoop_fold (mp : List (Nat × Nat)) (p2c : Nat → Int)
    (prediction target : List Nat) (N n_all n_classes n_inst : Nat)
    (l : List Nat) (res : PanopticResult) (d : Nat) :
    (l.foldl (fun r pid =>
      if thingMatchedCol mp n_classes n_inst pid then r
      else if p2c pid ≠ -1 ∧ colNonzero prediction target N n_all pid = true then
        { r with false_positive := bump r.false_positive (tidx n_classes (p2c pid)) 1 }
      else r) res).false_positive d
      = res.false_positive d +
        ((l.countP (fun pid => !thingMatchedCol mp n_classes n_inst pid &&
          ((p2c pid != -1) && colNonzero prediction target N n_all pid) &&
          (tidx n_classes (p2c pid) == d))) : ℚ) := by
  induction l generalizing res with
  | nil => simp
  | cons a l ih =>
    rw [List.foldl_cons, ih, List.countP_cons]
    have hstep : (if thingMatchedCol mp n_classes n_inst a then res
        else if p2c a ≠ -1 ∧ colNonzero prediction target N n_all a = true then
          { res with false_positive := bump res.false_positive (tidx n_classes (p2c a)) 1 }
        else res).false_positive d
        = res.false_positive d +
          (if (!thingMatchedCol mp n_classes n_inst a &&
            ((p2c a != -1) && colNonzero prediction target N n_all a) &&
            (tidx n_classes (p2c a) == d)) then (1 : ℚ) else 0) := by
      by_cases hm : thingMatchedCol mp n_classes n_inst a
      · simp [hm]
      · by_cases hv : p2c a = -1
        · simp [hm, hv]
        · by_cases hz : colNonzero prediction target N n_all a = true
          · by_cases hd : d = tidx n_classes (p2c a)
            · simp [hm, hv, hz, bump_apply, hd]
            · simp [hm, hv, hz, bump_apply, hd, Ne.symm hd]
          · simp [hm, hv, hz]
    rw [hstep]
    by_cases hp : (!thingMatchedCol mp n_classes n_inst a &&
        ((p2c a != -1) && colNonzero prediction target N n_all a) &&
        (tidx n_classes (p2c a) == d)) = true
    · simp only [hp, if_true, if_pos rfl]
      push_cast
      ring
    · rw [Bool.not_eq_true] at hp
      simp only [hp, Bool.false_eq_true, if_false]
      push_cast
      ring

/-- C3: after the matched pairs are processed, the false-negative loop adds
one false negative of class `c` for exactly the ground-truth thing ids with
no matched predicted thing and a valid class `c`, and the false-positive
loop adds one false positive of class `c` for exactly the predicted thing
ids with no matched ground-truth thing, a valid class `c` AND a nonzero
intersection column; a ground-truth (resp. predicted) thing with no match
at all in the match set has no matched thing either, and a predicted thing
with an all-zero intersection column fails the column test, hence
contributes nothing. -/
theorem C3_unmatched (mp : List (Nat × Nat)) (t2c p2c : Nat → Int)
    (prediction target : List Nat) (N n_all n_classes n_inst : Nat)
    (res : PanopticResult) (d : Nat) :
    ((fnLoop mp t2c n_classes n_inst res).false_negative d
      = res.false_negative d +
        (((List.range' n_classes n_inst).countP (fun tid =>
          !thingMatchedRow mp n_classes n_inst tid &&
          (t2c tid != -1) && (tidx n_classes (t2c tid) == d))) : ℚ)) ∧
    ((fpLoop mp p2c prediction target N n_all n_classes n_inst res).false_positive d
      = res.false_positive d +
        (((List.range' n_classes n_inst).countP (fun pid =>
          !thingMatchedCol mp n_classes n_inst pid &&
          ((p2c pid != -1) && colNonzero prediction target N n_all pid) &&
          (tidx n_classes (p2c pid) == d))) : ℚ)) ∧
    (∀ tid, (∀ pid, (tid, pid) ∉ mp) →
      thingMatchedRow mp n_classes n_inst tid = false) ∧
    (∀ pid, (∀ tid, (tid, pid) ∉ mp) →
      thingMatchedCol mp n_classes n_inst pid = false) ∧
    (∀ pid, (∀ tid, conf prediction target N tid pid = 0) →
      colNonzero prediction target N n_all pid = false) := by
  refine ⟨fnLoop_fold mp t2c n_classes n_inst _ res d,
    fpLoop_fold mp p2c prediction target N n_all n_classes n_inst _ res d,
    ?_, ?_, ?_⟩
  · intro tid h
    unfold thingMatchedRow
    rw [List.any_eq_false]
    intro pid _
    simpa using h pid
  · intro pid h
    unfold thingMatchedCol
    rw [List.any_eq_false]
    intro tid _
    simpa using h tid
  · intro pid h
    unfold colNonzero
    rw [List.any_eq_false]
    intro tid _
    simp [h tid]

/-- Witness for C3: with an empty match set, the single ground-truth thing
id 2 of class 0 yields exactly one false negative of class 0, and a
predicted thing with an all-zero column yields no false positive. -/
theorem C3_witness :
    (fnLoop [] (fun _ => 0) 2 1 zeroResult).false_negative 0 = 1 ∧
    (fpLoop [] (fun _ => 0) [0] [0] 4 3 2 1 zeroResult).false_positive 0 = 0 := by
  have h := C3_unmatched [] (fun _ => 0) (fun _ => 0) [0] [0] 4 3 2 1 zeroResult 0
  constructor
  · rw [h.1]
    rw [show (List.range' 2 1).countP (fun tid =>
      !thingMatchedRow [] 2 1 tid && (((fun _ : Nat => (0 : Int)) tid) != -1) &&
      (tidx 2 ((fun _ : Nat => (0 : Int)) tid) == 0)) = 1 from by decide]
    show zeroResult.false_negative 0 + (1 : ℚ) = 1
    simp [zeroResult]
  · rw [h.2.1]
    rw [show (List.range' 2 1).countP (fun pid =>
      !thingMatchedCol [] 2 1 pid && ((((fun _ : Nat => (0 : Int)) pid) != -1) &&
      colNonzero [0] [0] 4 3 pid) && (tidx 2 ((fun _ : Nat => (0 : Int)) pid) == 0)) = 0 from by decide]
    show zeroResult.false_positive 0 + (0 : ℚ) = 0
    simp [zeroResult]

/-! ## Claim C7: the overlap matrix -/

/-- Decoding the joint histogram: the sliced entry `(tid, pid)` counts the
pixels whose ground-truth label is `tid + 1` and predicted label `pid + 1`,
provided predicted labels fit below `N` (the encoding is then injective in
the predicted coordinate). -/
theorem conf_eq_countP (prediction target : List Nat) (N tid pid : Nat)
    (hp : ∀ v ∈ prediction, v < N) (hpid : pid + 1 < N) :
    conf prediction target N tid pid =
      (target.zip prediction).countP (fun q => q.1 == tid + 1 && q.2 == pid + 1) := by
  unfold conf
  rw [List.count_eq_countP, List.countP_map]
  apply List.countP_congr
  intro q hq
  have hq2 : q.2 < N := hp q.2 (List.of_mem_zip hq).2
  simp only [Function.comp_apply, beq_iff_eq, Bool.and_eq_true]
  unfold encodePix
  constructor
  · intro h
    have hN : 0 < N := by omega
    have h2 : q.2 = pid + 1 := by
      have e1 : (q.2 + N * q.1) % N = q.2 := by
        rw [Nat.add_mul_mod_self_left, Nat.mod_eq_of_lt hq2]
      have e2 : (pid + 1 + N * (tid + 1)) % N = pid + 1 := by
        rw [Nat.add_mul_mod_self_left, Nat.mod_eq_of_lt hpid]
      rw [← e1, h, e2]
    have h1 : q.1 = tid + 1 := by
      rw [h2] at h
      have hmul : N * q.1 = N * (tid + 1) := by omega
      exact Nat.eq_of_mul_eq_mul_left hN hmul
    exact ⟨h1, h2⟩
  · rintro ⟨h1, h2⟩
    rw [h1, h2]

/-- Summing an indicator cell over the predicted-id range. -/
theorem cell_sum_snd (a : Nat × Nat) (n_all tid : Nat) (ha : a.2 < n_all + 1) :
    (∑ p ∈ Finset.range n_all,
      (if (a.1 == tid + 1 && a.2 == p + 1) = true then 1 else 0))
      = if (a.1 == tid + 1 && a.2 != 0) = true then 1 else 0 := by
  by_cases h1 : a.1 = tid + 1
  · by_cases h2 : a.2 = 0
    · rw [if_neg (by simp [h2])]
      apply Finset.sum_eq_zero
      intro p _
      rw [if_neg (by simp [h2])]
    · rw [if_pos (by simp [h1, h2])]
      have hcongr : ∀ p ∈ Finset.range n_all,
          (if (a.1 == tid + 1 && a.2 == p + 1) = true then 1 else 0)
            = if p = a.2 - 1 then 1 else 0 := by
        intro p _
        apply if_congr _ rfl rfl
        simp only [h1, beq_self_eq_true, Bool.true_and, beq_iff_eq]
        omega
      rw [Finset.sum_congr rfl hcongr, Finset.sum_ite_eq' (Finset.range n_all) (a.2 - 1) (fun _ => 1)]
      rw [if_pos (Finset.mem_range.2 (by omega))]
  · rw [if_neg (by simp [h1])]
    apply Finset.sum_eq_zero
    intro p _
    rw [if_neg (by simp [h1])]

/-- Summing an indicator cell over the ground-truth-id range. -/
theorem cell_sum_fst (a : Nat × Nat) (n_all pid : Nat) (ha : a.1 < n_all + 1) :
    (∑ t ∈ Finset.range n_all,
      (if (a.1 == t + 1 && a.2 == pid + 1) = true then 1 else 0))
      = if (a.1 != 0 && a.2 == pid + 1) = true then 1 else 0 := by
  by_cases h2 : a.2 = pid + 1
  · by_cases h1 : a.1 = 0
    · rw [if_neg (by simp [h1])]
      apply Finset.sum_eq_zero
      intro t _
      rw [if_neg (by simp [h1])]
    · rw [if_pos (by simp [h1, h2])]
      have hcongr : ∀ t ∈ Finset.range n_all,
          (if (a.1 == t + 1 && a.2 == pid + 1) = true then 1 else 0)
            = if t = a.1 - 1 then 1 else 0 := by
        intro t _
        apply if_congr _ rfl rfl
        simp only [h2, beq_self_eq_true, Bool.and_true, beq_iff_eq]
        omega
      rw [Finset.sum_congr rfl hcongr, Finset.sum_ite_eq' (Finset.range n_all) (a.1 - 1) (fun _ => 1)]
      rw [if_pos (Finset.mem_range.2 (by omega))]
  · rw [if_neg (by simp [h2])]
    apply Finset.sum_eq_zero
    intro t _
    rw [if_neg (by simp [h2])]

/-- Summing the per-cell pixel counts of one ground-truth row over all
non-void predicted ids, plus the pixels whose prediction is void, gives the
pixels carrying the ground-truth label. -/
theorem sum_countP_row (L : List (Nat × Nat)) (n_all tid : Nat)
    (hb : ∀ q ∈ L, q.2 < n_all + 1) :
    (∑ p ∈ Finset.range n_all,
        L.countP (fun q => q.1 == tid + 1 && q.2 == p + 1))
      + L.countP (fun q => q.1 == tid + 1 && q.2 == 0)
      = L.countP (fun q => q.1 == tid + 1) := by
  induction L with
  | nil => simp
  | cons a L ih =>
    have hbL : ∀ q ∈ L, q.2 < n_all + 1 := fun q hq => hb q (List.mem_cons_of_mem a hq)
    have ihL := ih hbL
    simp only [List.countP_cons]
    rw [Finset.sum_add_distrib, cell_sum_snd a n_all tid (hb a (List.mem_cons_self a L))]
    have hind : (if (a.1 == tid + 1 && a.2 != 0) = true then 1 else 0)
        + (if (a.1 == tid + 1 && a.2 == 0) = true then 1 else 0)
        = (if (a.1 == tid + 1) = true then 1 else 0) := by
      by_cases h1 : a.1 = tid + 1
      · by_cases h2 : a.2 = 0 <;> simp [h1, h2]
      · simp [h1]
    omega

/-- Symmetric fact for one predicted column. -/
theorem sum_countP_col (L : List (Nat × Nat)) (n_all pid : Nat)
    (hb : ∀ q ∈ L, q.1 < n_all + 1) :
    (∑ t ∈ Finset.range n_all,
        L.countP (fun q => q.1 == t + 1 && q.2 == pid + 1))
      + L.countP (fun q => q.1 == 0 && q.2 == pid + 1)
      = L.countP (fun q => q.2 == pid + 1) := by
  induction L with
  | nil => simp
  | cons a L ih =>
    have hbL : ∀ q ∈ L, q.1 < n_all + 1 := fun q hq => hb q (List.mem_cons_of_mem a hq)
    have ihL := ih hbL
    simp only [List.countP_cons]
    rw [Finset.sum_add_distrib, cell_sum_fst a n_all pid (hb a (List.mem_cons_self a L))]
    have hind : (if (a.1 != 0 && a.2 == pid + 1) = true then 1 else 0)
        + (if (a.1 == 0 && a.2 == pid + 1) = true then 1 else 0)
        = (if (a.2 == pid + 1) = true then 1 else 0) := by
      by_cases h2 : a.2 = pid + 1
      · by_cases h1 : a.1 = 0 <;> simp [h1, h2]
      · simp [h2]
    omega

/-- Counting a property of the first components over a zip of equal-length
lists counts it on the first list. -/
theorem countP_zip_fst (L1 L2 : List Nat) (f : Nat → Bool)
    (hlen : L1.length = L2.length) :
    (L1.zip L2).countP (fun q => f q.1) = L1.countP f := by
  induction L1 generalizing L2 with
  | nil => simp
  | cons a L ih =>
    cases L2 with
    | nil => simp at hlen
    | cons b L2 =>
      simp only [List.zip_cons_cons, List.countP_cons]
      rw [ih L2 (by simpa using hlen)]

/-- Counting a property of the second components over a zip of equal-length
lists counts it on the second list. -/
theorem countP_zip_snd (L1 L2 : List Nat) (f : Nat → Bool)
    (hlen : L1.length = L2.length) :
    (L1.zip L2).countP (fun q => f q.2) = L2.countP f := by
  induction L1 generalizing L2 with
  | nil => cases L2 with
    | nil => simp
    | cons b L2 => simp at hlen
  | cons a L ih =>
    cases L2 with
    | nil => simp at hlen
    | cons b L2 =>
      simp only [List.zip_cons_cons, List.countP_cons]
      rw [ih L2 (by simpa using hlen)]

/-- C7 (amended): each entry of the sliced intersection matrix counts the
pixels where the two labels co-occur; the row sum of a ground-truth label
recovers that label's pixel area only after adding back the label's overlap
with the predicted void (label 0), and symmetrically for columns — the raw
row/column sums alone undercount the area whenever the other map has void
pixels there. -/
theorem C7_overlap_matrix (prediction target : List Nat) (n_all : Nat)
    (hp : ∀ v ∈ prediction, v < n_all + 1) (ht : ∀ v ∈ target, v < n_all + 1)
    (hlen : target.length = prediction.length) (tid pid : Nat)
    (htid : tid < n_all) (hpid : pid < n_all) :
    (conf prediction target (n_all + 1) tid pid =
      (target.zip prediction).countP (fun q => q.1 == tid + 1 && q.2 == pid + 1)) ∧
    (rowSum prediction target (n_all + 1) n_all tid +
      (target.zip prediction).countP (fun q => q.1 == tid + 1 && q.2 == 0)
      = target.count (tid + 1)) ∧
    (colSum prediction target (n_all + 1) n_all pid +
      (target.zip prediction).countP (fun q => q.1 == 0 && q.2 == pid + 1)
      = prediction.count (pid + 1)) := by
  have hbp : ∀ q ∈ target.zip prediction, q.2 < n_all + 1 :=
    fun q hq => hp q.2 (List.of_mem_zip hq).2
  have hbt : ∀ q ∈ target.zip prediction, q.1 < n_all + 1 :=
    fun q hq => ht q.1 (List.of_mem_zip hq).1
  refine ⟨conf_eq_countP prediction target (n_all + 1) tid pid hp (by omega), ?_, ?_⟩
  · have hrw : rowSum prediction target (n_all + 1) n_all tid =
        ∑ p ∈ Finset.range n_all,
          (target.zip prediction).countP (fun q => q.1 == tid + 1 && q.2 == p + 1) := by
      unfold rowSum
      rw [listRangeSum_eq]
      apply Finset.sum_congr rfl
      intro p hpm
      exact conf_eq_countP prediction target (n_all + 1) tid p hp
        (by have := Finset.mem_range.1 hpm; omega)
    rw [hrw, sum_countP_row (target.zip prediction) n_all tid hbp,
      List.count_eq_countP]
    exact countP_zip_fst target prediction (fun v => v == tid + 1) hlen
  · have hrw : colSum prediction target (n_all + 1) n_all pid =
        ∑ t ∈ Finset.range n_all,
          (target.zip prediction).countP (fun q => q.1 == t + 1 && q.2 == pid + 1) := by
      unfold colSum
      rw [listRangeSum_eq]
      apply Finset.sum_congr rfl
      intro t _
      exact conf_eq_countP prediction target (n_all + 1) t pid hp (by omega)
    rw [hrw, sum_countP_col (target.zip prediction) n_all pid hbt,
      List.count_eq_countP]
    exact countP_zip_snd target prediction (fun v => v == pid + 1) hlen

/-- C7 (counterexample): combined maps from ground truth
`segmentation = [1,1]`, `instance = [1,1]` and prediction
`segmentation = [1,5]`, `instance = [1,0]` (second predicted pixel void):
the ground-truth thing label 3 covers 2 pixels, but its row sum in the
sliced intersection matrix is only 1 — the overlap with the predicted void
column was discarded — contradicting the claim that row sums always equal
the label's pixel area. -/
theorem C7_counterexample :
    rowSum (combine_mask [1, 5] [1, 0] 2).1 (combine_mask [1, 1] [1, 1] 2).1 4 3 2 = 1 ∧
    (combine_mask [1, 1] [1, 1] 2).1.count 3 = 2 ∧
    (1 : Nat) ≠ 2 := by
  refine ⟨by decide, by decide, by decide⟩

/-- Witness for C7 on a concrete void-free pair of combined maps. -/
theorem C7_witness :
    (∀ v ∈ ([3, 1] : List Nat), v < 3 + 1) ∧
    conf [3, 1] [3, 3] (3 + 1) 2 2 =
      (([3, 3] : List Nat).zip ([3, 1] : List Nat)).countP
        (fun q => q.1 == 2 + 1 && q.2 == 2 + 1) ∧
    rowSum [3, 1] [3, 3] (3 + 1) 3 2 +
      (([3, 3] : List Nat).zip ([3, 1] : List Nat)).countP
        (fun q => q.1 == 2 + 1 && q.2 == 0)
      = ([3, 3] : List Nat).count (2 + 1) := by
  have h := C7_overlap_matrix [3, 1] [3, 3] 3 (by decide) (by decide) (by decide)
    2 2 (by decide) (by decide)
  exact ⟨by decide, h.1, h.2.1⟩

/-! ## Bounds on labels and the bincount-size check -/

/-- Every element is bounded by the running maximum. -/
theorem le_foldr_max (l : List Nat) : ∀ v ∈ l, v ≤ l.foldr max 0 := by
  induction l with
  | nil => intro v hv; simp at hv
  | cons a l ih =>
    intro v hv
    rcases List.mem_cons.1 hv with rfl | hm
    · exact le_max_left _ _
    · exact le_trans (ih v hm) (le_max_right _ _)

/-- Combined labels are bounded by `n_classes` plus the largest instance
value. -/
theorem combine_label_le (seg inst : List Nat) (n_classes m : Nat)
    (hv : ∀ v ∈ inst, v ≤ m) :
    ∀ L ∈ (combine_mask seg inst n_classes).1, L ≤ n_classes + m := by
  intro L hL
  rw [combine_fst_eq] at hL
  obtain ⟨p, hp, hfp⟩ := List.mem_map.1 hL
  have hpm : p.2 ≤ m := hv p.2 (List.of_mem_zip hp).2
  by_cases h1 : n_classes ≤ p.1
  · rw [if_pos h1] at hfp
    omega
  · rw [if_neg h1] at hfp
    by_cases h2 : 0 < p.2
    · rw [if_pos h2] at hfp
      omega
    · rw [if_neg h2] at hfp
      omega

/-- The bincount-size check of `panoptic_metrics` never fires: every
encoded pixel value stays below `n_things_and_void ** 2`, so the function
always returns the core result. -/
theorem panoptic_metrics_eq_ok (tcons : Bool) (vid n_classes : Nat)
    (pred_segmentation pred_instance gt_segmentation gt_instance : List Nat)
    (uid : Nat → Option Nat) :
    panoptic_metrics tcons vid n_classes
        pred_segmentation pred_instance gt_segmentation gt_instance uid =
      Except.ok (panoptic_core tcons vid n_classes
        pred_segmentation pred_instance gt_segmentation gt_instance uid) := by
  have hpb : ∀ v ∈ pred_instance, v ≤ nInstances pred_instance gt_instance :=
    fun v hv => le_foldr_max _ v (List.mem_append_left _ hv)
  have hgb : ∀ v ∈ gt_instance, v ≤ nInstances pred_instance gt_instance :=
    fun v hv => le_foldr_max _ v (List.mem_append_right _ hv)
  have hcond : (((combine_mask gt_segmentation gt_instance n_classes).1.zip
      (combine_mask pred_segmentation pred_instance n_classes).1).map
      (encodePix (nInstances pred_instance gt_instance + n_classes + 1))).all
      (fun x => decide (x < (nInstances pred_instance gt_instance + n_classes + 1) *
        (nInstances pred_instance gt_instance + n_classes + 1))) = true := by
    rw [List.all_eq_true]
    intro x hx
    obtain ⟨q, hq, hqe⟩ := List.mem_map.1 hx
    set m := nInstances pred_instance gt_instance with hm
    set N := m + n_classes + 1 with hN
    have hq1 : q.1 ≤ n_classes + m :=
      combine_label_le gt_segmentation gt_instance n_classes m hgb q.1
        (List.of_mem_zip hq).1
    have hq2 : q.2 ≤ n_classes + m :=
      combine_label_le pred_segmentation pred_instance n_classes m hpb q.2
        (List.of_mem_zip hq).2
    have hlt : q.1 < N := by omega
    have hmul : N * q.1 ≤ N * (N - 1) := Nat.mul_le_mul_left N (by omega)
    have hNN : N * N = N * (N - 1) + N := by
      have : N - 1 + 1 = N := by omega
      calc N * N = N * (N - 1 + 1) := by rw [this]
        _ = N * (N - 1) + N := by rw [Nat.mul_add, Nat.mul_one]
    rw [decide_eq_true_eq, ← hqe]
    unfold encodePix
    omega
  unfold panoptic_metrics
  simp only
  rw [if_pos hcond]

/-! ## Claim C8: the update-time precondition -/

/-- Frames never raise once started without an error: the per-frame step
keeps the error slot empty. -/
theorem foldFrames_no_error (tcons : Bool) (vid n_classes : Nat)
    (frames : List (List (Nat × Nat)))
    (acc : (PanopticResult × (Nat → Option Nat)) × Option String)
    (hacc : acc.2 = none) :
    (frames.foldl (stepFrame tcons vid n_classes) acc).2 = none := by
  induction frames generalizing acc with
  | nil => exact hacc
  | cons fr frames ih =>
    rw [List.foldl_cons]
    apply ih
    unfold stepFrame
    rw [hacc]
    simp only
    rw [panoptic_metrics_eq_ok]

/-- The sequence step keeps the error slot empty. -/
theorem stepSeq_no_error (tcons : Bool) (vid n_classes : Nat)
    (batch : List (List (List (Nat × Nat)))) (s : PanopticResult × Option String)
    (hs : s.2 = none) :
    (batch.foldl (stepSeq tcons vid n_classes) s).2 = none := by
  induction batch generalizing s with
  | nil => exact hs
  | cons sq batch ih =>
    rw [List.foldl_cons]
    apply ih
    unfold stepSeq
    rw [hs]
    simp only
    exact foldFrames_no_error tcons vid n_classes sq _ rfl

/-- C8: on a batch with at least one ground-truth pixel, `update` raises an
error if and only if the minimum ground-truth instance value over the whole
batch is not 0, and when it raises the returned accumulator state is the
input state, untouched (the assert runs before any accumulation; the only
other potential error, the bincount-size check, is unreachable). -/
theorem C8_update_raises (tcons : Bool) (vid n_classes : Nat)
    (st : PanopticResult) (batch : List (List (List (Nat × Nat))))
    (hne : allGt batch ≠ []) :
    ∃ m, (allGt batch).min? = some m ∧
      (((PanopticMetric.update tcons vid n_classes st batch).2).isSome ↔ m ≠ 0) ∧
      (m ≠ 0 → PanopticMetric.update tcons vid n_classes st batch =
        (st, some "ID 0 of gt_instance must be background")) := by
  obtain ⟨m, hm⟩ : ∃ m, (allGt batch).min? = some m := by
    cases h : (allGt batch).min? with
    | none => exact absurd (List.min?_eq_none_iff.1 h) hne
    | some m => exact ⟨m, rfl⟩
  refine ⟨m, hm, ?_, ?_⟩
  · by_cases h0 : m = 0
    · subst h0
      unfold PanopticMetric.update
      rw [if_pos hm]
      rw [stepSeq_no_error tcons vid n_classes batch (st, none) rfl]
      simp
    · unfold PanopticMetric.update
      rw [if_neg (by rw [hm]; simp [h0])]
      simp [h0]
  · intro h0
    unfold PanopticMetric.update
    rw [if_neg (by rw [hm]; simp [h0])]

/-- Witness for C8: a one-pixel batch whose ground-truth instance value is
1 makes `update` raise and leave the zero state untouched. -/
theorem C8_witness :
    allGt [[[(0, 1)]]] ≠ [] ∧
    (allGt [[[(0, 1)]]]).min? = some 1 ∧
    PanopticMetric.update true 1 2 zeroResult [[[(0, 1)]]] =
      (zeroResult, some "ID 0 of gt_instance must be background") := by
  obtain ⟨m, hm, _, himp⟩ :=
    C8_update_raises true 1 2 zeroResult [[[(0, 1)]]] (by decide)
  have hm1 : m = 1 := by
    rw [show (allGt [[[(0, 1)]]]).min? = some 1 from by decide] at hm
    exact (Option.some.injEq _ _ ▸ hm).symm ▸ rfl
  refine ⟨by decide, by decide, ?_⟩
  exact himp (by omega)

/-! ## Claim C10: classes above 1 are never touched by `update` -/

/-- A nonzero sliced-matrix entry means both labels occur in their maps. -/
theorem conf_pos_pair (prediction target : List Nat) (N tid pid : Nat)
    (hp : ∀ v ∈ prediction, v < N) (hpid : pid + 1 < N)
    (h : 0 < conf prediction target N tid pid) :
    (tid + 1) ∈ target ∧ (pid + 1) ∈ prediction := by
  rw [conf_eq_countP prediction target N tid pid hp hpid] at h
  obtain ⟨q, hq, hpq⟩ := List.countP_pos_iff.1 h
  simp only [Bool.and_eq_true, beq_iff_eq] at hpq
  have hmem := List.of_mem_zip hq
  exact ⟨hpq.1 ▸ hmem.1, hpq.2 ▸ hmem.2⟩

/-- The semantic maps derived by `update` are 0/1 valued. -/
theorem deriveSeg_01 (l : List Nat) : ∀ v ∈ deriveSeg l, v = 0 ∨ v = 1 := by
  intro v hv
  obtain ⟨w, _, hw⟩ := List.mem_map.1 hv
  by_cases h : 0 < w
  · rw [if_pos h] at hw
    omega
  · rw [if_neg h] at hw
    omega

/-- A class value of 0 or 1 indexes accumulator slot 0 or 1. -/
theorem tidx01_ne (n_classes c : Nat) (v : Int) (hv : v = 0 ∨ v = 1)
    (hc0 : c ≠ 0) (hc1 : c ≠ 1) : tidx n_classes v ≠ c := by
  rcases hv with rfl | rfl
  · rw [show (0 : Int) = ((0 : Nat) : Int) from rfl, tidx_natCast]
    omega
  · rw [show (1 : Int) = ((1 : Nat) : Int) from rfl, tidx_natCast]
    omega

/-- The second component of `combine_mask` is the label-to-class table. -/
theorem combine_snd_eq (seg inst : List Nat) (n_classes : Nat) :
    (combine_mask seg inst n_classes).2 = label_to_class n_classes (seg.zip inst) := rfl

/-- If the combined label `k + 1` occurs in a map whose segmentation values
are all 0 or 1 (and there are at least two classes), the table value at `k`
is 0 or 1. -/
theorem label_cls_01 (seg inst : List Nat) (n_classes : Nat)
    (h01 : ∀ v ∈ seg, v = 0 ∨ v = 1) (hncl : 2 ≤ n_classes) (k : Nat)
    (hk : (k + 1) ∈ (combine_mask seg inst n_classes).1) :
    (combine_mask seg inst n_classes).2 k = 0 ∨
      (combine_mask seg inst n_classes).2 k = 1 := by
  rw [combine_fst_eq] at hk
  obtain ⟨p, hp, hfp⟩ := List.mem_map.1 hk
  have hp1 := h01 p.1 (List.of_mem_zip hp).1
  by_cases h1 : n_classes ≤ p.1
  · rw [if_pos h1] at hfp
    omega
  · rw [if_neg h1] at hfp
    by_cases h2 : 0 < p.2
    · rw [if_pos h2] at hfp
      have hC : (combine_mask seg inst n_classes).2 k =
          toClsFold n_classes (seg.zip inst) k := by
        rw [combine_snd_eq]
        unfold label_to_class
        rw [if_neg (by omega)]
      rw [hC]
      obtain ⟨si, hsi, _, heq⟩ := foldWrite_writer n_classes (seg.zip inst)
        (fun _ => (-1 : Int)) k ⟨p, hp, h2, by omega, by omega⟩
      unfold toClsFold
      rw [heq]
      rcases h01 si.1 (List.of_mem_zip hsi).1 with h | h
      · left; rw [h]; rfl
      · right; rw [h]; rfl
    · rw [if_neg h2] at hfp
      have hkc : k < n_classes := by omega
      have hC : (combine_mask seg inst n_classes).2 k = (k : Int) := by
        rw [combine_snd_eq]
        unfold label_to_class
        rw [if_pos hkc]
      rw [hC]
      rcases hp1 with h | h
      · left; rw [show k = 0 from by omega]; rfl
      · right; rw [show k = 1 from by omega]; rfl

/-- A thing id whose table value is valid got it from a pixel's
segmentation value, hence is 0 or 1 for 0/1-valued segmentation. -/
theorem label_to_class_01 (seg inst : List Nat) (n_classes : Nat)
    (h01 : ∀ v ∈ seg, v = 0 ∨ v = 1) (k : Nat) (hk : n_classes ≤ k)
    (hne : (combine_mask seg inst n_classes).2 k ≠ -1) :
    (combine_mask seg inst n_classes).2 k = 0 ∨
      (combine_mask seg inst n_classes).2 k = 1 := by
  have hC : (combine_mask seg inst n_classes).2 k =
      toClsFold n_classes (seg.zip inst) k := by
    rw [combine_snd_eq]
    unfold label_to_class
    rw [if_neg (by omega)]
  rw [hC] at hne ⊢
  unfold toClsFold at hne ⊢
  rcases foldWrite_cases n_classes (seg.zip inst) (fun _ => (-1 : Int)) k with h | ⟨si, hsi, _, heq⟩
  · exact absurd h hne
  · rw [heq]
    rcases h01 si.1 (List.of_mem_zip hsi).1 with h | h
    · left; rw [h]; rfl
    · right; rw [h]; rfl

/-- One matched-pair iteration leaves accumulator slot `c` untouched when
both classes index other slots. -/
theorem processPair_untouched (tcons : Bool) (vid n_classes : Nat)
    (t2c p2c : Nat → Int) (iouF : Nat → Nat → ℚ)
    (s : PanopticResult × (Nat → Option Nat)) (a : Nat × Nat) (c : Nat)
    (h1 : tidx n_classes (t2c a.1) ≠ c) (h2 : tidx n_classes (p2c a.2) ≠ c) :
    (processPair tcons vid n_classes t2c p2c iouF s a).1.iou c = s.1.iou c ∧
    (processPair tcons vid n_classes t2c p2c iouF s a).1.true_positive c = s.1.true_positive c ∧
    (processPair tcons vid n_classes t2c p2c iouF s a).1.false_positive c = s.1.false_positive c ∧
    (processPair tcons vid n_classes t2c p2c iouF s a).1.false_negative c = s.1.false_negative c := by
  unfold processPair
  by_cases hcond : tcons = true ∧ p2c a.2 = (vid : Int) ∧ isSwitch s.2 a.1 a.2 = true
  · rw [if_pos hcond]
    refine ⟨rfl, rfl, ?_, ?_⟩
    · show bump s.1.false_positive (tidx n_classes (p2c a.2)) 1 c = _
      rw [bump_apply, if_neg (fun h => h2 h.symm)]
    · show bump s.1.false_negative (tidx n_classes (t2c a.1)) 1 c = _
      rw [bump_apply, if_neg (fun h => h1 h.symm)]
  · rw [if_neg hcond]
    refine ⟨?_, ?_, rfl, rfl⟩
    · show bump s.1.iou (tidx n_classes (p2c a.2)) (iouF a.1 a.2) c = _
      rw [bump_apply, if_neg (fun h => h2 h.symm)]
    · show bump s.1.true_positive (tidx n_classes (p2c a.2)) 1 c = _
      rw [bump_apply, if_neg (fun h => h2 h.symm)]

/-- The whole matched-pair loop leaves slot `c` untouched when every
matched pair's classes index other slots. -/
theorem processPair_fold_untouched (tcons : Bool) (vid n_classes : Nat)
    (t2c p2c : Nat → Int) (iouF : Nat → Nat → ℚ) (mp : List (Nat × Nat)) (c : Nat)
    (hcls : ∀ q ∈ mp, tidx n_classes (t2c q.1) ≠ c ∧ tidx n_classes (p2c q.2) ≠ c) :
    ∀ s : PanopticResult × (Nat → Option Nat),
      (mp.foldl (processPair tcons vid n_classes t2c p2c iouF) s).1.iou c = s.1.iou c ∧
      (mp.foldl (processPair tcons vid n_classes t2c p2c iouF) s).1.true_positive c = s.1.true_positive c ∧
      (mp.foldl (processPair tcons vid n_classes t2c p2c iouF) s).1.false_positive c = s.1.false_positive c ∧
      (mp.foldl (processPair tcons vid n_classes t2c p2c iouF) s).1.false_negative c = s.1.false_negative c := by
  induction mp with
  | nil => intro s; exact ⟨rfl, rfl, rfl, rfl⟩
  | cons a l ih =>
    intro s
    rw [List.foldl_cons]
    have ha := hcls a (List.mem_cons_self a l)
    have hstep := processPair_untouched tcons vid n_classes t2c p2c iouF s a c ha.1 ha.2
    have hrest := ih (fun q hq => hcls q (List.mem_cons_of_mem a hq))
      (processPair tcons vid n_classes t2c p2c iouF s a)
    exact ⟨hrest.1.trans hstep.1, hrest.2.1.trans hstep.2.1,
      hrest.2.2.1.trans hstep.2.2.1, hrest.2.2.2.trans hstep.2.2.2⟩

/-- The false-negative loop never touches the other three accumulators. -/
theorem fnLoop_fields (mp : List (Nat × Nat)) (t2c : Nat → Int)
    (n_classes n_inst : Nat) : ∀ (l : List Nat) (res : PanopticResult),
    ((l.foldl (fun r tid =>
      if thingMatchedRow mp n_classes n_inst tid then r
      else if t2c tid ≠ -1 then
        { r with false_negative := bump r.false_negative (tidx n_classes (t2c tid)) 1 }
      else r) res).iou = res.iou ∧
    (l.foldl (fun r tid =>
      if thingMatchedRow mp n_classes n_inst tid then r
      else if t2c tid ≠ -1 then
        { r with false_negative := bump r.false_negative (tidx n_classes (t2c tid)) 1 }
      else r) res).true_positive = res.true_positive ∧
    (l.foldl (fun r tid =>
      if thingMatchedRow mp n_classes n_inst tid then r
      else if t2c tid ≠ -1 then
        { r with false_negative := bump r.false_negative (tidx n_classes (t2c tid)) 1 }
      else r) res).false_positive = res.false_positive) := by
  intro l
  induction l with
  | nil => intro res; exact ⟨rfl, rfl, rfl⟩
  | cons a l ih =>
    intro res
    rw [List.foldl_cons]
    have hstep : ∀ res : PanopticResult, ((if thingMatchedRow mp n_classes n_inst a then res
        else if t2c a ≠ -1 then
          { res with false_negative := bump res.false_negative (tidx n_classes (t2c a)) 1 }
        else res).iou = res.iou ∧
        (if thingMatchedRow mp n_classes n_inst a then res
        else if t2c a ≠ -1 then
          { res with false_negative := bump res.false_negative (tidx n_classes (t2c a)) 1 }
        else res).true_positive = res.true_positive ∧
        (if thingMatchedRow mp n_classes n_inst a then res
        else if t2c a ≠ -1 then
          { res with false_negative := bump res.false_negative (tidx n_classes (t2c a)) 1 }
        else res).false_positive = res.false_positive) := by
      intro res
      by_cases hm : thingMatchedRow mp n_classes n_inst a
      · rw [if_pos hm]; exact ⟨rfl, rfl, rfl⟩
      · rw [if_neg hm]
        by_cases hv : t2c a ≠ -1
        · rw [if_pos hv]; exact ⟨rfl, rfl, rfl⟩
        · rw [if_neg hv]; exact ⟨rfl, rfl, rfl⟩
    have h1 := hstep res
    have h2 := ih (if thingMatchedRow mp n_classes n_inst a then res
        else if t2c a ≠ -1 then
          { res with false_negative := bump res.false_negative (tidx n_classes (t2c a)) 1 }
        else res)
    exact ⟨h2.1.trans h1.1, h2.2.1.trans h1.2.1, h2.2.2.trans h1.2.2⟩

/-- The false-positive loop never touches the other three accumulators. -/
theorem fpLoop_fields (mp : List (Nat × Nat)) (p2c : Nat → Int)
    (prediction target : List Nat) (N n_all n_classes n_inst : Nat) :
    ∀ (l : List Nat) (res : PanopticResult),
    ((l.foldl (fun r pid =>
      if thingMatchedCol mp n_classes n_inst pid then r
      else if p2c pid ≠ -1 ∧ colNonzero prediction target N n_all pid = true then
        { r with false_positive := bump r.false_positive (tidx n_classes (p2c pid)) 1 }
      else r) res).iou = res.iou ∧
    (l.foldl (fun r pid =>
      if thingMatchedCol mp n_classes n_inst pid then r
      else if p2c pid ≠ -1 ∧ colNonzero prediction target N n_all pid = true then
        { r with false_positive := bump r.false_positive (tidx n_classes (p2c pid)) 1 }
      else r) res).true_positive = res.true_positive ∧
    (l.foldl (fun r pid =>
      if thingMatchedCol mp n_classes n_inst pid then r
      else if p2c pid ≠ -1 ∧ colNonzero prediction target N n_all pid = true then
        { r with false_positive := bump r.false_positive (tidx n_classes (p2c pid)) 1 }
      else r) res).false_negative = res.false_negative) := by
  intro l
  induction l with
  | nil => intro res; exact ⟨rfl, rfl, rfl⟩
  | cons a l ih =>
    intro res
    rw [List.foldl_cons]
    have hstep : ∀ res : PanopticResult, ((if thingMatchedCol mp n_classes n_inst a then res
        else if p2c a ≠ -1 ∧ colNonzero prediction target N n_all a = true then
          { res with false_positive := bump res.false_positive (tidx n_classes (p2c a)) 1 }
        else res).iou = res.iou ∧
        (if thingMatchedCol mp n_classes n_inst a then res
        else if p2c a ≠ -1 ∧ colNonzero prediction target N n_all a = true then
          { res with false_positive := bump res.false_positive (tidx n_classes (p2c a)) 1 }
        else res).true_positive = res.true_positive ∧
        (if thingMatchedCol mp n_classes n_inst a then res
        else if p2c a ≠ -1 ∧ colNonzero prediction target N n_all a = true then
          { res with false_positive := bump res.false_positive (tidx n_classes (p2c a)) 1 }
        else res).false_negative = res.false_negative) := by
      intro res
      by_cases hm : thingMatchedCol mp n_classes n_inst a
      · rw [if_pos hm]; exact ⟨rfl, rfl, rfl⟩
      · rw [if_neg hm]
        by_cases hv : p2c a ≠ -1 ∧ colNonzero prediction target N n_all a = true
        · rw [if_pos hv]; exact ⟨rfl, rfl, rfl⟩
        · rw [if_neg hv]; exact ⟨rfl, rfl, rfl⟩
    have h1 := hstep res
    have h2 := ih (if thingMatchedCol mp n_classes n_inst a then res
        else if p2c a ≠ -1 ∧ colNonzero prediction target N n_all a = true then
          { res with false_positive := bump res.false_positive (tidx n_classes (p2c a)) 1 }
        else res)
    exact ⟨h2.1.trans h1.1, h2.2.1.trans h1.2.1, h2.2.2.trans h1.2.2⟩

/-- Under the class-slot side conditions, the unmatched loops add nothing
at slot `c` either. -/
theorem loops_untouched (mp : List (Nat × Nat)) (t2c p2c : Nat → Int)
    (prediction target : List Nat) (N n_all n_classes n_inst : Nat)
    (res : PanopticResult) (c : Nat)
    (hfn : ∀ tid, n_classes ≤ tid → t2c tid ≠ -1 → tidx n_classes (t2c tid) ≠ c)
    (hfp : ∀ pid, n_classes ≤ pid → p2c pid ≠ -1 → tidx n_classes (p2c pid) ≠ c) :
    (fpLoop mp p2c prediction target N n_all n_classes n_inst
      (fnLoop mp t2c n_classes n_inst res)).iou c = res.iou c ∧
    (fpLoop mp p2c prediction target N n_all n_classes n_inst
      (fnLoop mp t2c n_classes n_inst res)).true_positive c = res.true_positive c ∧
    (fpLoop mp p2c prediction target N n_all n_classes n_inst
      (fnLoop mp t2c n_classes n_inst res)).false_positive c = res.false_positive c ∧
    (fpLoop mp p2c prediction target N n_all n_classes n_inst
      (fnLoop mp t2c n_classes n_inst res)).false_negative c = res.false_negative c := by
  have hfnz : ((List.range' n_classes n_inst).countP (fun tid =>
      !thingMatchedRow mp n_classes n_inst tid &&
      (t2c tid != -1) && (tidx n_classes (t2c tid) == c))) = 0 := by
    rw [List.countP_eq_zero]
    intro tid htid
    have hge : n_classes ≤ tid := (List.mem_range'_1.1 htid).1
    by_cases hv : t2c tid = -1
    · simp [hv]
    · simp only [Bool.and_eq_true, beq_iff_eq, bne_iff_ne, ne_eq, Bool.not_eq_true]
      intro hx
      exact absurd hx.2 (hfn tid hge hv)
  have hfpz : ((List.range' n_classes n_inst).countP (fun pid =>
      !thingMatchedCol mp n_classes n_inst pid &&
      ((p2c pid != -1) && colNonzero prediction target N n_all pid) &&
      (tidx n_classes (p2c pid) == c))) = 0 := by
    rw [List.countP_eq_zero]
    intro pid hpid
    have hge : n_classes ≤ pid := (List.mem_range'_1.1 hpid).1
    by_cases hv : p2c pid = -1
    · simp [hv]
    · simp only [Bool.and_eq_true, beq_iff_eq, bne_iff_ne, ne_eq, Bool.not_eq_true]
      intro hx
      exact absurd hx.2 (hfp pid hge hv)
  have h1 := fnLoop_fold mp t2c n_classes n_inst (List.range' n_classes n_inst) res c
  have h2 := fnLoop_fields mp t2c n_classes n_inst (List.range' n_classes n_inst) res
  have h3 := fpLoop_fold mp p2c prediction target N n_all n_classes n_inst
    (List.range' n_classes n_inst) (fnLoop mp t2c n_classes n_inst res) c
  have h4 := fpLoop_fields mp p2c prediction target N n_all n_classes n_inst
    (List.range' n_classes n_inst) (fnLoop mp t2c n_classes n_inst res)
  refine ⟨?_, ?_, ?_, ?_⟩
  · show (fpLoop mp p2c prediction target N n_all n_classes n_inst
      (fnLoop mp t2c n_classes n_inst res)).iou c = res.iou c
    have : (fpLoop mp p2c prediction target N n_all n_classes n_inst
        (fnLoop mp t2c n_classes n_inst res)).iou =
        (fnLoop mp t2c n_classes n_inst res).iou := h4.1
    rw [this, show (fnLoop mp t2c n_classes n_inst res).iou = res.iou from h2.1]
  · have : (fpLoop mp p2c prediction target N n_all n_classes n_inst
        (fnLoop mp t2c n_classes n_inst res)).true_positive =
        (fnLoop mp t2c n_classes n_inst res).true_positive := h4.2.1
    rw [this, show (fnLoop mp t2c n_classes n_inst res).true_positive
      = res.true_positive from h2.2.1]
  · show (fpLoop mp p2c prediction target N n_all n_classes n_inst
      (fnLoop mp t2c n_classes n_inst res)).false_positive c = res.false_positive c
    rw [show (fpLoop mp p2c prediction target N n_all n_classes n_inst
      (fnLoop mp t2c n_classes n_inst res)).false_positive c
      = (fnLoop mp t2c n_classes n_inst res).false_positive c +
        (((List.range' n_classes n_inst).countP (fun pid =>
          !thingMatchedCol mp n_classes n_inst pid &&
          ((p2c pid != -1) && colNonzero prediction target N n_all pid) &&
          (tidx n_classes (p2c pid) == c))) : ℚ) from h3, hfpz]
    rw [show (fnLoop mp t2c n_classes n_inst res).false_positive
      = res.false_positive from h2.2.2]
    norm_num
  · rw [show (fpLoop mp p2c prediction target N n_all n_classes n_inst
      (fnLoop mp t2c n_classes n_inst res)).false_negative
      = (fnLoop mp t2c n_classes n_inst res).false_negative from h4.2.2]
    rw [show (fnLoop mp t2c n_classes n_inst res).false_negative c
      = res.false_negative c + (((List.range' n_classes n_inst).countP (fun tid =>
        !thingMatchedRow mp n_classes n_inst tid &&
        (t2c tid != -1) && (tidx n_classes (t2c tid) == c))) : ℚ) from h1, hfnz]
    norm_num

/-- One frame of `update` (semantic maps derived by thresholding) produces
a zero contribution at every accumulator slot other than 0 and 1. -/
theorem core_untouched (tcons : Bool) (vid n_classes : Nat)
    (pred_instance gt_instance : List Nat) (uid : Nat → Option Nat) (c : Nat)
    (hc0 : c ≠ 0) (hc1 : c ≠ 1) (hncl : 2 ≤ n_classes) :
    (panoptic_core tcons vid n_classes (deriveSeg pred_instance) pred_instance
      (deriveSeg gt_instance) gt_instance uid).1.iou c = 0 ∧
    (panoptic_core tcons vid n_classes (deriveSeg pred_instance) pred_instance
      (deriveSeg gt_instance) gt_instance uid).1.true_positive c = 0 ∧
    (panoptic_core tcons vid n_classes (deriveSeg pred_instance) pred_instance
      (deriveSeg gt_instance) gt_instance uid).1.false_positive c = 0 ∧
    (panoptic_core tcons vid n_classes (deriveSeg pred_instance) pred_instance
      (deriveSeg gt_instance) gt_instance uid).1.false_negative c = 0 := by
  unfold panoptic_core
  simp only
  set m := nInstances pred_instance gt_instance with hm
  set pm := combine_mask (deriveSeg pred_instance) pred_instance n_classes with hpmd
  set tm := combine_mask (deriveSeg gt_instance) gt_instance n_classes with htmd
  set mp := matchPairs pm.1 tm.1 (m + n_classes + 1) (m + n_classes) tm.2 pm.2 with hmpd
  have hpb : ∀ v ∈ pred_instance, v ≤ m :=
    fun v hv => le_foldr_max _ v (List.mem_append_left _ hv)
  have hgb : ∀ v ∈ gt_instance, v ≤ m :=
    fun v hv => le_foldr_max _ v (List.mem_append_right _ hv)
  have hpredb : ∀ v ∈ pm.1, v < m + n_classes + 1 := by
    intro v hv
    have := combine_label_le (deriveSeg pred_instance) pred_instance n_classes m hpb v hv
    omega
  have hfn : ∀ tid, n_classes ≤ tid → tm.2 tid ≠ -1 →
      tidx n_classes (tm.2 tid) ≠ c := by
    intro tid h1 h2
    exact tidx01_ne n_classes c _
      (label_to_class_01 (deriveSeg gt_instance) gt_instance n_classes
        (deriveSeg_01 gt_instance) tid h1 h2) hc0 hc1
  have hfp : ∀ pid, n_classes ≤ pid → pm.2 pid ≠ -1 →
      tidx n_classes (pm.2 pid) ≠ c := by
    intro pid h1 h2
    exact tidx01_ne n_classes c _
      (label_to_class_01 (deriveSeg pred_instance) pred_instance n_classes
        (deriveSeg_01 pred_instance) pid h1 h2) hc0 hc1
  have hmp : ∀ q ∈ mp, tidx n_classes (tm.2 q.1) ≠ c ∧
      tidx n_classes (pm.2 q.2) ≠ c := by
    rintro ⟨qt, qp⟩ hq
    have hq' := (mem_matchPairs_iff pm.1 tm.1 (m + n_classes + 1) (m + n_classes)
      tm.2 pm.2 qt qp).1 hq
    obtain ⟨hqt, hqp, hu, hu2, _⟩ := hq'
    have hconf : 0 < conf pm.1 tm.1 (m + n_classes + 1) qt qp := by omega
    have hmem := conf_pos_pair pm.1 tm.1 (m + n_classes + 1) qt qp hpredb
      (by omega) hconf
    constructor
    · exact tidx01_ne n_classes c _
        (label_cls_01 (deriveSeg gt_instance) gt_instance n_classes
          (deriveSeg_01 gt_instance) hncl qt hmem.1) hc0 hc1
    · exact tidx01_ne n_classes c _
        (label_cls_01 (deriveSeg pred_instance) pred_instance n_classes
          (deriveSeg_01 pred_instance) hncl qp hmem.2) hc0 hc1
  have hfold := processPair_fold_untouched tcons vid n_classes tm.2 pm.2
    (iouVal pm.1 tm.1 (m + n_classes + 1) (m + n_classes)) mp c hmp (zeroResult, uid)
  have hloops := loops_untouched mp tm.2 pm.2 pm.1 tm.1 (m + n_classes + 1)
    (m + n_classes) n_classes m
    (mp.foldl (processPair tcons vid n_classes tm.2 pm.2
      (iouVal pm.1 tm.1 (m + n_classes + 1) (m + n_classes))) (zeroResult, uid)).1
    c hfn hfp
  exact ⟨hloops.1.trans hfold.1, hloops.2.1.trans hfold.2.1,
    hloops.2.2.1.trans hfold.2.2.1, hloops.2.2.2.trans hfold.2.2.2⟩

/-- The frame step leaves slots other than 0 and 1 unchanged. -/
theorem stepFrame_untouched (tcons : Bool) (vid n_classes : Nat) (c : Nat)
    (hc0 : c ≠ 0) (hc1 : c ≠ 1) (hncl : 2 ≤ n_classes) :
    ∀ (s : (PanopticResult × (Nat → Option Nat)) × Option String)
      (fr : List (Nat × Nat)),
      (stepFrame tcons vid n_classes s fr).1.1.iou c = s.1.1.iou c ∧
      (stepFrame tcons vid n_classes s fr).1.1.true_positive c = s.1.1.true_positive c ∧
      (stepFrame tcons vid n_classes s fr).1.1.false_positive c = s.1.1.false_positive c ∧
      (stepFrame tcons vid n_classes s fr).1.1.false_negative c = s.1.1.false_negative c := by
  rintro ⟨⟨res, uid⟩, err⟩ fr
  cases err with
  | some e => exact ⟨rfl, rfl, rfl, rfl⟩
  | none =>
    unfold stepFrame
    simp only
    rw [panoptic_metrics_eq_ok]
    simp only
    have hz := core_untouched tcons vid n_classes (fr.map Prod.fst)
      (fr.map Prod.snd) uid c hc0 hc1 hncl
    unfold addResult
    refine ⟨?_, ?_, ?_, ?_⟩
    · show res.iou c + (panoptic_core tcons vid n_classes
        (deriveSeg (fr.map Prod.fst)) (fr.map Prod.fst)
        (deriveSeg (fr.map Prod.snd)) (fr.map Prod.snd) uid).1.iou c = res.iou c
      rw [hz.1, add_zero]
    · show res.true_positive c + (panoptic_core tcons vid n_classes
        (deriveSeg (fr.map Prod.fst)) (fr.map Prod.fst)
        (deriveSeg (fr.map Prod.snd)) (fr.map Prod.snd) uid).1.true_positive c
        = res.true_positive c
      rw [hz.2.1, add_zero]
    · show res.false_positive c + (panoptic_core tcons vid n_classes
        (deriveSeg (fr.map Prod.fst)) (fr.map Prod.fst)
        (deriveSeg (fr.map Prod.snd)) (fr.map Prod.snd) uid).1.false_positive c
        = res.false_positive c
      rw [hz.2.2.1, add_zero]
    · show res.false_negative c + (panoptic_core tcons vid n_classes
        (deriveSeg (fr.map Prod.fst)) (fr.map Prod.fst)
        (deriveSeg (fr.map Prod.snd)) (fr.map Prod.snd) uid).1.false_negative c
        = res.false_negative c
      rw [hz.2.2.2, add_zero]

/-- Folding the frame step over a sequence leaves such slots unchanged. -/
theorem foldFrames_untouched (tcons : Bool) (vid n_classes : Nat) (c : Nat)
    (hc0 : c ≠ 0) (hc1 : c ≠ 1) (hncl : 2 ≤ n_classes) :
    ∀ (frames : List (List (Nat × Nat)))
      (acc : (PanopticResult × (Nat → Option Nat)) × Option String),
      (frames.foldl (stepFrame tcons vid n_classes) acc).1.1.iou c = acc.1.1.iou c ∧
      (frames.foldl (stepFrame tcons vid n_classes) acc).1.1.true_positive c = acc.1.1.true_positive c ∧
      (frames.foldl (stepFrame tcons vid n_classes) acc).1.1.false_positive c = acc.1.1.false_positive c ∧
      (frames.foldl (stepFrame tcons vid n_classes) acc).1.1.false_negative c = acc.1.1.false_negative c := by
  intro frames
  induction frames with
  | nil => intro acc; exact ⟨rfl, rfl, rfl, rfl⟩
  | cons fr frames ih =>
    intro acc
    rw [List.foldl_cons]
    have h1 := stepFrame_untouched tcons vid n_classes c hc0 hc1 hncl acc fr
    have h2 := ih (stepFrame tcons vid n_classes acc fr)
    exact ⟨h2.1.trans h1.1, h2.2.1.trans h1.2.1,
      h2.2.2.1.trans h1.2.2.1, h2.2.2.2.trans h1.2.2.2⟩

/-- The sequence step leaves such slots unchanged. -/
theorem stepSeq_untouched (tcons : Bool) (vid n_classes : Nat) (c : Nat)
    (hc0 : c ≠ 0) (hc1 : c ≠ 1) (hncl : 2 ≤ n_classes) :
    ∀ (s : PanopticResult × Option String) (sq : List (List (Nat × Nat))),
      (stepSeq tcons vid n_classes s sq).1.iou c = s.1.iou c ∧
      (stepSeq tcons vid n_classes s sq).1.true_positive c = s.1.true_positive c ∧
      (stepSeq tcons vid n_classes s sq).1.false_positive c = s.1.false_positive c ∧
      (stepSeq tcons vid n_classes s sq).1.false_negative c = s.1.false_negative c := by
  rintro ⟨res, err⟩ sq
  cases err with
  | some e => exact ⟨rfl, rfl, rfl, rfl⟩
  | none =>
    unfold stepSeq
    simp only
    exact foldFrames_untouched tcons vid n_classes c hc0 hc1 hncl sq
      ((res, fun _ => none), none)

/-- C10: `update` derives both semantic maps by thresholding the instance
maps, so every pixel class is 0 or 1 and, for every class index `c` with
`2 ≤ c < n_classes`, all four accumulators at `c` are left exactly as they
were — whether or not the background assert fires. -/
theorem C10_upper_classes (tcons : Bool) (vid n_classes : Nat)
    (st : PanopticResult) (batch : List (List (List (Nat × Nat)))) (c : Nat)
    (h2 : 2 ≤ c) (hcn : c < n_classes) :
    (PanopticMetric.update tcons vid n_classes st batch).1.iou c = st.iou c ∧
    (PanopticMetric.update tcons vid n_classes st batch).1.true_positive c = st.true_positive c ∧
    (PanopticMetric.update tcons vid n_classes st batch).1.false_positive c = st.false_positive c ∧
    (PanopticMetric.update tcons vid n_classes st batch).1.false_negative c = st.false_negative c := by
  have hc0 : c ≠ 0 := by omega
  have hc1 : c ≠ 1 := by omega
  have hncl : 2 ≤ n_classes := by omega
  unfold PanopticMetric.update
  by_cases hmin : (allGt batch).min? = some 0
  · rw [if_pos hmin]
    have hfold : ∀ (b : List (List (List (Nat × Nat))))
        (s : PanopticResult × Option String),
        (b.foldl (stepSeq tcons vid n_classes) s).1.iou c = s.1.iou c ∧
        (b.foldl (stepSeq tcons vid n_classes) s).1.true_positive c = s.1.true_positive c ∧
        (b.foldl (stepSeq tcons vid n_classes) s).1.false_positive c = s.1.false_positive c ∧
        (b.foldl (stepSeq tcons vid n_classes) s).1.false_negative c = s.1.false_negative c := by
      intro b
      induction b with
      | nil => intro s; exact ⟨rfl, rfl, rfl, rfl⟩
      | cons sq b ih =>
        intro s
        rw [List.foldl_cons]
        have h1 := stepSeq_untouched tcons vid n_classes c hc0 hc1 hncl s sq
        have h2 := ih (stepSeq tcons vid n_classes s sq)
        exact ⟨h2.1.trans h1.1, h2.2.1.trans h1.2.1,
          h2.2.2.1.trans h1.2.2.1, h2.2.2.2.trans h1.2.2.2⟩
    exact hfold batch (st, none)
  · rw [if_neg hmin]
    exact ⟨rfl, rfl, rfl, rfl⟩

/-- Witness for C10: a valid one-frame batch with three classes leaves the
class-2 accumulators of the zero state at zero. -/
theorem C10_witness :
    (2 : Nat) ≤ 2 ∧ (2 : Nat) < 3 ∧
    (PanopticMetric.update true 1 3 zeroResult [[[(1, 1), (0, 0)]]]).1.iou 2
      = zeroResult.iou 2 ∧
    (PanopticMetric.update true 1 3 zeroResult [[[(1, 1), (0, 0)]]]).1.true_positive 2
      = zeroResult.true_positive 2 := by
  have h := C10_upper_classes true 1 3 zeroResult [[[(1, 1), (0, 0)]]] 2
    (by omega) (by omega)
  exact ⟨by omega, by omega, h.1, h.2.1⟩

end STP3
